import Mathlib

/-!
Verification development for the `js-data-mongodb` adapter
(`dist/js-data-mongodb.js`).

The adapter translates an abstract `js-data` selection query into a native
MongoDB filter document and option document, executes CRUD operations, and
resolves declared relationships.  This file gives a shallow embedding of the
relevant parts of the adapter and proves properties about them.

Modelling conventions:

* JavaScript values are modelled by `JSPrim` (strings, integers, booleans,
  BSON ObjectIDs, `null`/`undefined`) and `JSVal` (a primitive or a flat
  array of primitives).  Nested objects and nested arrays are outside the
  modelled value domain; no claim below depends on them.
* JavaScript objects that the adapter builds by property assignment are
  modelled as association lists with a replace-first update (`assocSet`),
  mirroring that a JS object has at most one entry per key and that setting
  an existing key overwrites it in place.
* The adapter source file runs in strict mode, so assigning a property on a
  truthy primitive (string/number/boolean) raises a `TypeError`; translation
  functions therefore return `Option`, with `none` standing for a thrown
  exception.  A property assignment on a non-plain object (array, ObjectID)
  succeeds in JS but is invisible in the serialized filter document; it is
  modelled as leaving the document unchanged.
-/

namespace JsDataMongo

/-- Primitive JavaScript/BSON values appearing in queries and records.
`oid s` is a BSON ObjectID carrying its string form. -/
inductive JSPrim where
  | str (s : String)
  | num (n : Int)
  | bool (b : Bool)
  | oid (s : String)
  | null
  deriving DecidableEq, Repr

/-- A JavaScript value: a primitive or a flat array of primitives. -/
inductive JSVal where
  | prim (p : JSPrim)
  | arr (l : List JSPrim)
  deriving DecidableEq, Repr

/-- Shorthand for a string value. -/
def jstr (s : String) : JSVal := .prim (.str s)

/-- Shorthand for a number value. -/
def jnum (n : Int) : JSVal := .prim (.num n)

/-- Shorthand for an array value. -/
def jarr (l : List JSPrim) : JSVal := .arr l

/-- JavaScript truthiness of a primitive. -/
def primTruthy : JSPrim → Bool
  | .str s => !s.isEmpty
  | .num n => n != 0
  | .bool b => b
  | .oid _ => true
  | .null => false

/-- JavaScript truthiness of a value (arrays are always truthy). -/
def jsTruthy : JSVal → Bool
  | .prim p => primTruthy p
  | .arr _ => true

/-- Whether a value is a JS primitive in the `typeof` sense
(string/number/boolean); assigning a property on a truthy one throws in
strict mode.  ObjectIDs and arrays are objects. -/
def isPrimitiveJS : JSVal → Bool
  | .prim (.str _) => true
  | .prim (.num _) => true
  | .prim (.bool _) => true
  | _ => false

/-- `toString()` of a primitive (`null` is never stringified by the adapter
because it is falsy; the value used for it here is irrelevant). -/
def primToString : JSPrim → String
  | .str s => s
  | .num n => toString n
  | .bool b => if b then "true" else "false"
  | .oid s => s
  | .null => ""

/-- `toString()` of a value; a JS array stringifies as its elements joined
by commas. -/
def jsToStr : JSVal → String
  | .prim p => primToString p
  | .arr l => String.intercalate "," (l.map primToString)

/-- Association-list lookup, modelling JS property read `o[k]`
(`none` = `undefined`). -/
def alookup {α : Type} : List (String × α) → String → Option α
  | [], _ => none
  | (k₁, v₁) :: t, k => if k₁ = k then some v₁ else alookup t k

/-- Association-list update, modelling JS property write `o[k] = v`: the
first entry with the key is replaced in place, otherwise the entry is
appended (JS objects keep insertion order). -/
def assocSet {α : Type} : List (String × α) → String → α → List (String × α)
  | [], k, v => [(k, v)]
  | (k₁, v₁) :: t, k, v => if k₁ = k then (k₁, v) :: t else (k₁, v₁) :: assocSet t k v

theorem alookup_assocSet_self {α : Type} (l : List (String × α)) (k : String) (v : α) :
    alookup (assocSet l k v) k = some v := by
  induction l with
  | nil => simp [assocSet, alookup]
  | cons h t ih =>
    obtain ⟨k₁, v₁⟩ := h
    by_cases hk : k₁ = k <;> simp [assocSet, alookup, hk, ih]

theorem alookup_assocSet_ne {α : Type} (l : List (String × α)) (k k' : String) (v : α)
    (h : k' ≠ k) : alookup (assocSet l k v) k' = alookup l k' := by
  have h' : k ≠ k' := fun he => h he.symm
  induction l with
  | nil => simp [assocSet, alookup, h']
  | cons hd t ih =>
    obtain ⟨k₁, v₁⟩ := hd
    by_cases hk : k₁ = k
    · subst hk
      simp [assocSet, alookup, h']
    · simp only [assocSet, if_neg hk, alookup]
      by_cases hk' : k₁ = k' <;> simp [hk', ih]

theorem assocSet_assocSet {α : Type} (l : List (String × α)) (k : String) (a b : α) :
    assocSet (assocSet l k a) k b = assocSet l k b := by
  induction l with
  | nil => simp [assocSet]
  | cons hd t ih =>
    obtain ⟨k₁, v₁⟩ := hd
    by_cases hk : k₁ = k <;> simp [assocSet, hk, ih]

theorem assocSet_eq_of_alookup {α : Type} (l : List (String × α)) (k : String) (v : α)
    (h : alookup l k = some v) : assocSet l k v = l := by
  induction l with
  | nil => simp [alookup] at h
  | cons hd t ih =>
    obtain ⟨k₁, v₁⟩ := hd
    by_cases hk : k₁ = k
    · simp only [alookup, if_pos hk] at h
      obtain rfl : v₁ = v := Option.some.inj h
      simp [assocSet, hk]
    · simp only [alookup, if_neg hk] at h
      simp [assocSet, hk, ih h]

theorem alookup_some_mem {α : Type} {l : List (String × α)} {k : String} {v : α}
    (h : alookup l k = some v) : (k, v) ∈ l := by
  induction l with
  | nil => simp [alookup] at h
  | cons hd t ih =>
    obtain ⟨k₁, v₁⟩ := hd
    by_cases hk : k₁ = k
    · simp only [alookup, if_pos hk] at h
      subst hk
      obtain rfl : v₁ = v := Option.some.inj h
      exact List.mem_cons_self _ _
    · simp only [alookup, if_neg hk] at h
      exact List.mem_cons_of_mem _ (ih h)

theorem alookup_eq_none_iff {α : Type} (l : List (String × α)) (k : String) :
    alookup l k = none ↔ k ∉ l.map Prod.fst := by
  induction l with
  | nil => simp [alookup]
  | cons hd t ih =>
    obtain ⟨k₁, v₁⟩ := hd
    by_cases hk : k₁ = k
    · subst hk
      simp [alookup]
    · have hk' : ¬k = k₁ := fun he => hk he.symm
      simp [alookup, hk, hk', ih]

theorem alookup_of_mem_nodup {α : Type} {l : List (String × α)} {k : String} {v : α}
    (hm : (k, v) ∈ l) (hnd : (l.map Prod.fst).Nodup) : alookup l k = some v := by
  induction l with
  | nil => simp at hm
  | cons hd t ih =>
    obtain ⟨k₁, v₁⟩ := hd
    simp only [List.map_cons, List.nodup_cons] at hnd
    rcases List.mem_cons.mp hm with h | h
    · simp only [Prod.mk.injEq] at h
      simp [alookup, h.1.symm, h.2]
    · have hne : k₁ ≠ k := by
        intro he
        exact hnd.1 (he ▸ (List.mem_map.mpr ⟨(k, v), h, rfl⟩))
      simp [alookup, hne, ih h hnd.2]

/-- Under distinct keys, lookup is invariant under permutation of the
association list. -/
theorem alookup_perm {α : Type} {l₁ l₂ : List (String × α)} (hp : l₁.Perm l₂)
    (hnd : (l₁.map Prod.fst).Nodup) (k : String) : alookup l₁ k = alookup l₂ k := by
  have hnd₂ : (l₂.map Prod.fst).Nodup := ((hp.map Prod.fst).nodup_iff).mp hnd
  cases e : alookup l₁ k with
  | some v =>
    exact (alookup_of_mem_nodup (hp.mem_iff.mp (alookup_some_mem e)) hnd₂).symm ▸ rfl
  | none =>
    have : k ∉ l₂.map Prod.fst := by
      intro hmem
      exact ((alookup_eq_none_iff l₁ k).mp e) ((hp.map Prod.fst).mem_iff.mpr hmem)
    rw [(alookup_eq_none_iff l₂ k).mpr this]

/-! ## Native filter documents

`getQuery` builds a plain JS object `mongoQuery`.  A value stored under a
field of that object is either a directly assigned operand (equality
operators write `mongoQuery[field] = v`), a sub-document of native `$`
operators, or — under the key `$or` only — an array of single-key
disjuncts. -/

/-- One element pushed onto `mongoQuery.$or`: either `{field: v}` (from
`|==`, `|===`, `|contains`) or `{field: {$op: v}}` (the other `|` ops). -/
inductive OrItem where
  | val (field : String) (v : JSVal)
  | op (field : String) (nativeOp : String) (v : JSVal)
  deriving DecidableEq, Repr

/-- The value stored under one key of the native filter object. -/
inductive MClause where
  | val (v : JSVal)
  | ops (l : List (String × JSVal))
  | orArr (l : List OrItem)
  deriving DecidableEq, Repr

/-- A native MongoDB filter document, as the JS object `mongoQuery`. -/
abbrev MDoc := List (String × MClause)

/-- The operators `==`, `===`, `contains`: they assign the operand to the
field directly (`mongoQuery[field] = v`). -/
def isEqOp (op : String) : Bool :=
  if op = "==" then true
  else if op = "===" then true
  else if op = "contains" then true
  else false

/-- The non-equality, non-OR operators of the fixed table, mapped to the
native `$` key they write into the field sub-document. -/
def nonEqNative? (op : String) : Option String :=
  if op = "!=" then some "$ne"
  else if op = "!==" then some "$ne"
  else if op = "notContains" then some "$ne"
  else if op = ">" then some "$gt"
  else if op = ">=" then some "$gte"
  else if op = "<" then some "$lt"
  else if op = "<=" then some "$lte"
  else if op = "in" then some "$in"
  else if op = "notIn" then some "$nin"
  else none

/-- The `|`-prefixed OR operators: `some none` for the equality forms
(which push `{field: v}`), `some (some k)` for the ones pushing
`{field: {k: v}}`. -/
def orNative? (op : String) : Option (Option String) :=
  if op = "|==" then some none
  else if op = "|===" then some none
  else if op = "|contains" then some none
  else if op = "|!=" then some (some "$ne")
  else if op = "|!==" then some (some "$ne")
  else if op = "|notContains" then some (some "$ne")
  else if op = "|>" then some (some "$gt")
  else if op = "|>=" then some (some "$gte")
  else if op = "|<" then some (some "$lt")
  else if op = "|<=" then some (some "$lte")
  else if op = "|in" then some (some "$in")
  else if op = "|notIn" then some (some "$nin")
  else none

/-- Whether the operator appears anywhere in the fixed operator table. -/
def recognizedOp (op : String) : Bool :=
  isEqOp op || (nonEqNative? op).isSome || (orNative? op).isSome

/-- Effect of one non-equality table operator on the filter:
`mongoQuery[field] = mongoQuery[field] || \x7b\x7d; mongoQuery[field].$k = v`.
If the field currently holds a truthy primitive, the property assignment
throws (strict mode); on a truthy non-plain object (array/ObjectID) it is
absorbed without changing the serialized document. -/
def applyNonEq (doc : MDoc) (f k : String) (v : JSVal) : Option MDoc :=
  match alookup doc f with
  | none => some (assocSet doc f (.ops [(k, v)]))
  | some (.ops l) => some (assocSet doc f (.ops (assocSet l k v)))
  | some (.val d) =>
    if jsTruthy d then
      if isPrimitiveJS d then none else some doc
    else some (assocSet doc f (.ops [(k, v)]))
  | some (.orArr _) => some doc

/-- Effect of one `|` operator:
`mongoQuery.$or = mongoQuery.$or || []; mongoQuery.$or.push(item)`.
`push` on a truthy non-array (or a plain object) throws. -/
def applyOrPush (doc : MDoc) (item : OrItem) : Option MDoc :=
  match alookup doc "$or" with
  | none => some (assocSet doc "$or" (.orArr [item]))
  | some (.orArr l) => some (assocSet doc "$or" (.orArr (l ++ [item])))
  | some (.val d) =>
    if jsTruthy d then none else some (assocSet doc "$or" (.orArr [item]))
  | some (.ops _) => none

/-- One `(operator, operand)` pair of a `where` criteria object, applied to
the filter being built — the body of the inner `forOwn` of `getQuery`.
Operators outside the table fall through every branch and do nothing. -/
def applyOp (doc : MDoc) (f op : String) (v : JSVal) : Option MDoc :=
  if isEqOp op then some (assocSet doc f (.val v))
  else
    match nonEqNative? op with
    | some k => applyNonEq doc f k v
    | none =>
      match orNative? op with
      | some none => applyOrPush doc (.val f v)
      | some (some k) => applyOrPush doc (.op f k v)
      | none => some doc

/-- Fold a step function returning `Option` over a list, left to right,
aborting at the first `none` (a thrown exception). -/
def optFold {α β : Type} (f : β → α → Option β) : β → List α → Option β
  | b, [] => some b
  | b, a :: t =>
    match f b a with
    | none => none
    | some b' => optFold f b' t

/-- A criteria object: operator name to operand, in key order. -/
abbrev Criteria := List (String × JSVal)

/-- All `(operator, operand)` pairs of one field applied in order. -/
def applyCriteria (doc : MDoc) (f : String) (c : Criteria) : Option MDoc :=
  optFold (fun d p => applyOp d f p.1 p.2) doc c

/-- A value of a `where` entry: either a criteria object, or a bare
(non-object) literal. -/
inductive QVal where
  | lit (v : JSVal)
  | criteria (c : Criteria)
  deriving DecidableEq, Repr

/-- One `where` entry processed by the outer `forOwn` of `getQuery`.
A bare literal is re-wrapped too late to take effect: the inner `forOwn`
still iterates the original literal, whose enumerable keys (array indices,
string indices, none for numbers/booleans) are never operator names, so a
literal entry contributes nothing — except `null`, on which `Object.keys`
throws a `TypeError`. -/
def applyEntry (doc : MDoc) (p : String × QVal) : Option MDoc :=
  match p.2 with
  | .criteria c => applyCriteria doc p.1 c
  | .lit (.prim .null) => none
  | .lit _ => some doc

/-- Translate a whole (normalized) `where` object into the native filter. -/
def translateWhere (w : List (String × QVal)) : Option MDoc :=
  optFold applyEntry [] w

/-- Modelled from the spec: the reserved top-level query keywords of the
base adapter (`js-data-adapter`, an external dependency not present in this
repository), as listed in the data-model section of the specification:
`orderBy`/`sort`, `skip`/`offset`, `limit`, `with`, plus `where` itself. -/
def reservedKeys : List String :=
  ["limit", "offset", "orderBy", "skip", "sort", "where", "with"]

/-- Wrapping applied when a non-reserved top-level key is folded into
`where`: objects are moved as-is, bare literals become implicit equality
clauses. -/
def wrapTopVal : QVal → QVal
  | .criteria c => .criteria c
  | .lit v => .criteria [("==", v)]

/-- An `orderBy` entry: a bare field name or a `[field, direction]` pair. -/
inductive OrderByElem where
  | fieldName (f : String)
  | pair (f : String) (d : String)
  deriving DecidableEq, Repr

/-- The value of `orderBy`/`sort`: a single field name or a list of
entries. -/
inductive OrderBySpec where
  | str (s : String)
  | list (l : List OrderByElem)
  deriving DecidableEq, Repr

/-- An abstract selection query.  The reserved keywords get typed fields;
`extras` holds the remaining top-level keys in insertion order. -/
structure AbstractQuery where
  whereQ : Option (List (String × QVal)) := none
  orderBy : Option OrderBySpec := none
  sort : Option OrderBySpec := none
  skip : Option JSVal := none
  offset : Option JSVal := none
  limit : Option JSVal := none
  extras : List (String × QVal) := []
  deriving DecidableEq, Repr

/-- The normalization pass of `getQuery`: every non-reserved top-level key
is folded into `where` (bare literals wrapped as `==` clauses), overwriting
a `where` entry of the same name. -/
def normalizedWhere (q : AbstractQuery) : List (String × QVal) :=
  q.extras.foldl
    (fun w p => if p.1 ∈ reservedKeys then w else assocSet w p.1 (wrapTopVal p.2))
    (q.whereQ.getD [])

/-- `MongoDBAdapter#getQuery`: normalize, then translate `where` into the
native filter document.  `none` models a thrown `TypeError`. -/
def getQuery (q : AbstractQuery) : Option MDoc :=
  translateWhere (normalizedWhere q)

/-! ## Query options (`getQueryOptions`) -/

/-- A JS number: an integer or `NaN` (the model restricts JS numbers to
integers; no claim involves fractional values). -/
inductive NumVal where
  | int (n : Int)
  | nan
  deriving DecidableEq, Repr

/-- Numeric coercion of a string (the model parses integers only; the
empty string coerces to `0`). -/
def strToNumber (s : String) : NumVal :=
  if s.isEmpty then .int 0
  else
    match s.toInt? with
    | some n => .int n
    | none => .nan

/-- Unary `+` coercion of a primitive to a number. -/
def primToNumber : JSPrim → NumVal
  | .num n => .int n
  | .str s => strToNumber s
  | .bool b => .int (if b then 1 else 0)
  | .null => .int 0
  | .oid _ => .nan

/-- Unary `+` coercion of a value to a number; a JS array stringifies
first, so a singleton array coerces through its element's string form. -/
def toNumber : JSVal → NumVal
  | .prim p => primToNumber p
  | .arr [] => .int 0
  | .arr [p] => strToNumber (primToString p)
  | .arr _ => .nan

/-- The native option document produced by `getQueryOptions`. -/
structure QueryOptions where
  sort : Option (List (String × String)) := none
  skip : Option NumVal := none
  limit : Option NumVal := none
  deriving DecidableEq, Repr

/-- JS truthiness of an `orderBy` value (an array, even empty, is truthy;
the empty string is falsy). -/
def obTruthy : OrderBySpec → Bool
  | .str s => !s.isEmpty
  | .list _ => true

/-- Normalization of one `orderBy` element: a bare string becomes
`[field, "asc"]`. -/
def normOrderByElem : OrderByElem → String × String
  | .fieldName f => (f, "asc")
  | .pair f d => (f, d)

/-- `MongoDBAdapter#getQueryOptions`: `orderBy` falls back to `sort` and
`skip` to `offset` via JS `||`; truthy `orderBy` is normalized to
`[field, direction]` pairs; truthy `skip`/`limit` are number-coerced;
falsy ones are omitted. -/
def getQueryOptions (q : AbstractQuery) : QueryOptions :=
  let ob :=
    match q.orderBy with
    | some o => if obTruthy o then some o else q.sort
    | none => q.sort
  let sk :=
    match q.skip with
    | some v => if jsTruthy v then some v else q.offset
    | none => q.offset
  { sort :=
      match ob with
      | some o =>
        if obTruthy o then
          some (match o with
            | .str s => [(s, "asc")]
            | .list l => l.map normOrderByElem)
        else none
      | none => none,
    skip :=
      match sk with
      | some v => if jsTruthy v then some (toNumber v) else none
      | none => none,
    limit :=
      match q.limit with
      | some v => if jsTruthy v then some (toNumber v) else none
      | none => none }

/-! ## Field-local view of the filter translation

Every table operator except the `|` forms reads and writes only the entry
`mongoQuery[field]` of the document.  `clauseFold` replays a criteria
object on just that entry; `applyCriteria_clause` proves the whole-document
fold agrees with it.  This locality is what makes the translation
order-independent across fields when no `|` operator occurs. -/

/-- Effect of one non-equality operator on the current value of a single
field entry (mirrors `applyNonEq`). -/
def stepClause (cur : Option MClause) (k : String) (v : JSVal) : Option (Option MClause) :=
  match cur with
  | none => some (some (.ops [(k, v)]))
  | some (.ops l) => some (some (.ops (assocSet l k v)))
  | some (.val d) =>
    if jsTruthy d then
      if isPrimitiveJS d then none else some (some (.val d))
    else some (some (.ops [(k, v)]))
  | some (.orArr l) => some (some (.orArr l))

/-- Effect of one operator on a single field entry.  `|` operators and
unrecognized operators leave the entry unchanged (the former touch only
`$or`, which the order-independence hypotheses exclude). -/
def clauseOp (cur : Option MClause) (op : String) (v : JSVal) : Option (Option MClause) :=
  if isEqOp op then some (some (.val v))
  else
    match nonEqNative? op with
    | some k => stepClause cur k v
    | none => some cur

/-- Replay a whole criteria object on a single field entry. -/
def clauseFold (cur : Option MClause) (c : Criteria) : Option (Option MClause) :=
  optFold (fun s p => clauseOp s p.1 p.2) cur c

/-- A criteria object with no `|`-prefixed operator. -/
def criteriaNoOr (c : Criteria) : Bool :=
  c.all (fun p => (orNative? p.1).isNone)

/-- A `where` entry that never touches `$or`: a bare literal, or a criteria
object without `|` operators. -/
def entryNoOr : QVal → Bool
  | .lit _ => true
  | .criteria c => criteriaNoOr c

/-- Effect of a whole `where` entry on a single field entry. -/
def entryApply (cur : Option MClause) : QVal → Option (Option MClause)
  | .criteria c => clauseFold cur c
  | .lit (.prim .null) => none
  | .lit _ => some cur

theorem clauseOp_some_isSome (x : MClause) (op : String) (v : JSVal) (r : Option MClause)
    (h : clauseOp (some x) op v = some r) : r.isSome := by
  unfold clauseOp at h
  by_cases he : isEqOp op = true
  · rw [if_pos he] at h
    rw [← Option.some.inj h]
    rfl
  · rw [if_neg he] at h
    cases e : nonEqNative? op with
    | none =>
      rw [e] at h
      rw [← Option.some.inj h]
      rfl
    | some k =>
      rw [e] at h
      cases x with
      | ops l =>
        simp only [stepClause] at h
        rw [← Option.some.inj h]
        rfl
      | orArr l =>
        simp only [stepClause] at h
        rw [← Option.some.inj h]
        rfl
      | val d =>
        simp only [stepClause] at h
        by_cases ht : jsTruthy d = true
        · rw [if_pos ht] at h
          by_cases hp : isPrimitiveJS d = true
          · rw [if_pos hp] at h
            exact absurd h (by simp)
          · rw [if_neg hp] at h
            rw [← Option.some.inj h]
            rfl
        · rw [if_neg ht] at h
          rw [← Option.some.inj h]
          rfl

theorem clauseFold_some_isSome (c : Criteria) :
    ∀ (x : MClause) (r : Option MClause), clauseFold (some x) c = some r → r.isSome := by
  induction c with
  | nil =>
    intro x r h
    simp only [clauseFold, optFold] at h
    rw [← Option.some.inj h]
    rfl
  | cons p t ih =>
    intro x r h
    simp only [clauseFold, optFold] at h
    cases e : clauseOp (some x) p.1 p.2 with
    | none => rw [e] at h; exact absurd h (by simp)
    | some s =>
      rw [e] at h
      obtain ⟨y, rfl⟩ := Option.isSome_iff_exists.mp (clauseOp_some_isSome x p.1 p.2 s e)
      exact ih y r h

/-- Locality of the translation: on a criteria object with no `|`
operators, processing a field only reads and writes that field's entry of
the document, so the whole-document fold agrees with the single-entry
replay `clauseFold`. -/
theorem applyCriteria_clause (f : String) :
    ∀ c : Criteria, criteriaNoOr c = true → ∀ doc : MDoc,
      applyCriteria doc f c =
        match clauseFold (alookup doc f) c with
        | none => none
        | some (some cl) => some (assocSet doc f cl)
        | some none => some doc := by
  intro c
  induction c with
  | nil =>
    intro _ doc
    simp only [applyCriteria, optFold, clauseFold]
    cases e : alookup doc f with
    | none => rfl
    | some cl =>
      simp only []
      rw [assocSet_eq_of_alookup doc f cl e]
  | cons p t ih =>
    intro hno doc
    obtain ⟨op, v⟩ := p
    simp only [criteriaNoOr, List.all_cons, Bool.and_eq_true] at hno
    have hno' : criteriaNoOr t = true := hno.2
    have hnoOr : orNative? op = none := Option.isNone_iff_eq_none.mp hno.1
    have key : ∀ cl₀ : MClause,
        applyCriteria (assocSet doc f cl₀) f t =
          match clauseFold (some cl₀) t with
          | none => none
          | some (some cl) => some (assocSet doc f cl)
          | some none => some doc := by
      intro cl₀
      rw [ih hno' (assocSet doc f cl₀), alookup_assocSet_self]
      cases r : clauseFold (some cl₀) t with
      | none => rfl
      | some s =>
        cases s with
        | none => exact absurd (clauseFold_some_isSome t cl₀ none r) (by simp)
        | some cl =>
          simp only []
          rw [assocSet_assocSet]
    by_cases he : isEqOp op = true
    · have l1 : applyCriteria doc f ((op, v) :: t) =
          applyCriteria (assocSet doc f (MClause.val v)) f t := by
        simp only [applyCriteria, optFold, applyOp, if_pos he]
      have l2 : clauseFold (alookup doc f) ((op, v) :: t) =
          clauseFold (some (MClause.val v)) t := by
        simp only [clauseFold, optFold, clauseOp, if_pos he]
      rw [l1, l2, key (MClause.val v)]
    · cases e : nonEqNative? op with
      | some k =>
        cases ea : alookup doc f with
        | none =>
          have l1 : applyCriteria doc f ((op, v) :: t) =
              applyCriteria (assocSet doc f (MClause.ops [(k, v)])) f t := by
            simp only [applyCriteria, optFold, applyOp, if_neg he, e, applyNonEq, ea]
          have l2 : clauseFold (none : Option MClause) ((op, v) :: t) =
              clauseFold (some (MClause.ops [(k, v)])) t := by
            simp only [clauseFold, optFold, clauseOp, if_neg he, e, stepClause]
          rw [l1, l2, key (MClause.ops [(k, v)])]
        | some cl₁ =>
          cases cl₁ with
          | ops l =>
            have l1 : applyCriteria doc f ((op, v) :: t) =
                applyCriteria (assocSet doc f (MClause.ops (assocSet l k v))) f t := by
              simp only [applyCriteria, optFold, applyOp, if_neg he, e, applyNonEq, ea]
            have l2 : clauseFold (some (MClause.ops l)) ((op, v) :: t) =
                clauseFold (some (MClause.ops (assocSet l k v))) t := by
              simp only [clauseFold, optFold, clauseOp, if_neg he, e, stepClause]
            rw [l1, l2, key (MClause.ops (assocSet l k v))]
          | orArr l =>
            have l1 : applyCriteria doc f ((op, v) :: t) = applyCriteria doc f t := by
              simp only [applyCriteria, optFold, applyOp, if_neg he, e, applyNonEq, ea]
            have l2 : clauseFold (some (MClause.orArr l)) ((op, v) :: t) =
                clauseFold (some (MClause.orArr l)) t := by
              simp only [clauseFold, optFold, clauseOp, if_neg he, e, stepClause]
            rw [l1, l2, ih hno' doc, ea]
          | val d =>
            by_cases ht : jsTruthy d = true
            · by_cases hp : isPrimitiveJS d = true
              · have l1 : applyCriteria doc f ((op, v) :: t) = none := by
                  simp only [applyCriteria, optFold, applyOp, if_neg he, e, applyNonEq,
                    ea, if_pos ht, if_pos hp]
                have l2 : clauseFold (some (MClause.val d)) ((op, v) :: t) = none := by
                  simp only [clauseFold, optFold, clauseOp, if_neg he, e, stepClause,
                    if_pos ht, if_pos hp]
                rw [l1, l2]
              · have l1 : applyCriteria doc f ((op, v) :: t) = applyCriteria doc f t := by
                  simp only [applyCriteria, optFold, applyOp, if_neg he, e, applyNonEq,
                    ea, if_pos ht, if_neg hp]
                have l2 : clauseFold (some (MClause.val d)) ((op, v) :: t) =
                    clauseFold (some (MClause.val d)) t := by
                  simp only [clauseFold, optFold, clauseOp, if_neg he, e, stepClause,
                    if_pos ht, if_neg hp]
                rw [l1, l2, ih hno' doc, ea]
            · have l1 : applyCriteria doc f ((op, v) :: t) =
                  applyCriteria (assocSet doc f (MClause.ops [(k, v)])) f t := by
                simp only [applyCriteria, optFold, applyOp, if_neg he, e, applyNonEq,
                  ea, if_neg ht]
              have l2 : clauseFold (some (MClause.val d)) ((op, v) :: t) =
                  clauseFold (some (MClause.ops [(k, v)])) t := by
                simp only [clauseFold, optFold, clauseOp, if_neg he, e, stepClause,
                  if_neg ht]
              rw [l1, l2, key (MClause.ops [(k, v)])]
      | none =>
        have l1 : applyCriteria doc f ((op, v) :: t) = applyCriteria doc f t := by
          simp only [applyCriteria, optFold, applyOp, if_neg he, e, hnoOr]
        have l2 : clauseFold (alookup doc f) ((op, v) :: t) =
            clauseFold (alookup doc f) t := by
          simp only [clauseFold, optFold, clauseOp, if_neg he, e]
        rw [l1, l2, ih hno' doc]

/-- The locality lemma extended to whole `where` entries (bare literals
leave every field entry unchanged, or throw on `null`). -/
theorem applyEntry_clause (f : String) (qv : QVal) (hno : entryNoOr qv = true)
    (doc : MDoc) :
    applyEntry doc (f, qv) =
      match entryApply (alookup doc f) qv with
      | none => none
      | some (some cl) => some (assocSet doc f cl)
      | some none => some doc := by
  cases qv with
  | criteria c => exact applyCriteria_clause f c hno doc
  | lit v =>
    cases v with
    | prim p =>
      cases p with
      | null => rfl
      | str s =>
        simp only [applyEntry, entryApply]
        cases e : alookup doc f with
        | none => rfl
        | some cl =>
          simp only []
          rw [assocSet_eq_of_alookup doc f cl e]
      | num n =>
        simp only [applyEntry, entryApply]
        cases e : alookup doc f with
        | none => rfl
        | some cl =>
          simp only []
          rw [assocSet_eq_of_alookup doc f cl e]
      | bool b =>
        simp only [applyEntry, entryApply]
        cases e : alookup doc f with
        | none => rfl
        | some cl =>
          simp only []
          rw [assocSet_eq_of_alookup doc f cl e]
      | oid s =>
        simp only [applyEntry, entryApply]
        cases e : alookup doc f with
        | none => rfl
        | some cl =>
          simp only []
          rw [assocSet_eq_of_alookup doc f cl e]
    | arr l =>
      simp only [applyEntry, entryApply]
      cases e : alookup doc f with
      | none => rfl
      | some cl =>
        simp only []
        rw [assocSet_eq_of_alookup doc f cl e]

/-- The document after one entry with single-field result `r`. -/
def reconstructDoc (doc : MDoc) (f : String) (r : Option MClause) : MDoc :=
  match r with
  | some cl => assocSet doc f cl
  | none => doc

theorem alookup_reconstructDoc_ne (doc : MDoc) (f k : String) (r : Option MClause)
    (h : k ≠ f) : alookup (reconstructDoc doc f r) k = alookup doc k := by
  cases r with
  | none => rfl
  | some cl => exact alookup_assocSet_ne doc f k cl h

theorem translate_cons_step (f : String) (qv : QVal) (w' : List (String × QVal))
    (doc : MDoc) (hq : entryNoOr qv = true) :
    optFold applyEntry doc ((f, qv) :: w') =
      match entryApply (alookup doc f) qv with
      | none => none
      | some r => optFold applyEntry (reconstructDoc doc f r) w' := by
  simp only [optFold]
  rw [applyEntry_clause f qv hq doc]
  cases E : entryApply (alookup doc f) qv with
  | none => rfl
  | some r => cases r <;> rfl

/-- Failure of the `where` translation is a per-field matter: it throws
exactly when some entry throws on its own field. -/
theorem translateFrom_none_iff :
    ∀ (w : List (String × QVal)) (doc : MDoc),
      (w.map Prod.fst).Nodup → (∀ p ∈ w, entryNoOr p.2 = true) →
      (optFold applyEntry doc w = none ↔
        ∃ p ∈ w, entryApply (alookup doc p.1) p.2 = none) := by
  intro w
  induction w with
  | nil =>
    intro doc _ _
    simp [optFold]
  | cons hd w' ih =>
    intro doc hnd hno
    obtain ⟨f, qv⟩ := hd
    simp only [List.map_cons, List.nodup_cons] at hnd
    have hq : entryNoOr qv = true := hno (f, qv) (List.mem_cons_self _ _)
    have hno' : ∀ p ∈ w', entryNoOr p.2 = true :=
      fun p hp => hno p (List.mem_cons_of_mem _ hp)
    have hne : ∀ p ∈ w', p.1 ≠ f := by
      intro p hp hEq
      exact hnd.1 (hEq ▸ List.mem_map.mpr ⟨p, hp, rfl⟩)
    rw [translate_cons_step f qv w' doc hq]
    cases E : entryApply (alookup doc f) qv with
    | none =>
      simp only []
      constructor
      · intro _
        exact ⟨(f, qv), List.mem_cons_self _ _, E⟩
      · intro _
        trivial
    | some r =>
      simp only []
      rw [ih (reconstructDoc doc f r) hnd.2 hno']
      constructor
      · rintro ⟨p, hp, hE⟩
        refine ⟨p, List.mem_cons_of_mem _ hp, ?_⟩
        rw [← alookup_reconstructDoc_ne doc f p.1 r (hne p hp)]
        exact hE
      · rintro ⟨p, hp, hE⟩
        rcases List.mem_cons.mp hp with h | h
        · rw [h] at hE
          simp only [] at hE
          rw [E] at hE
          cases hE
        · refine ⟨p, h, ?_⟩
          rw [alookup_reconstructDoc_ne doc f p.1 r (hne p h)]
          exact hE

/-- On success, each key of the produced filter is determined by that key's
own `where` entry alone. -/
theorem translateFrom_alookup :
    ∀ (w : List (String × QVal)) (doc d : MDoc),
      (w.map Prod.fst).Nodup → (∀ p ∈ w, entryNoOr p.2 = true) →
      optFold applyEntry doc w = some d →
      ∀ k, alookup d k =
        match alookup w k with
        | none => alookup doc k
        | some qv =>
          match entryApply (alookup doc k) qv with
          | some (some cl) => some cl
          | some none => alookup doc k
          | none => alookup doc k := by
  intro w
  induction w with
  | nil =>
    intro doc d _ _ h k
    simp only [optFold] at h
    rw [← Option.some.inj h]
    rfl
  | cons hd w' ih =>
    intro doc d hnd hno h k
    obtain ⟨f, qv⟩ := hd
    simp only [List.map_cons, List.nodup_cons] at hnd
    have hq : entryNoOr qv = true := hno (f, qv) (List.mem_cons_self _ _)
    have hno' : ∀ p ∈ w', entryNoOr p.2 = true :=
      fun p hp => hno p (List.mem_cons_of_mem _ hp)
    rw [translate_cons_step f qv w' doc hq] at h
    cases E : entryApply (alookup doc f) qv with
    | none =>
      rw [E] at h
      cases h
    | some r =>
      rw [E] at h
      simp only [] at h
      have IH := ih (reconstructDoc doc f r) d hnd.2 hno' h
      by_cases hk : k = f
      · subst hk
        have hw' : alookup w' k = none :=
          (alookup_eq_none_iff w' k).mpr hnd.1
        have hIHk := IH k
        rw [hw'] at hIHk
        simp only [] at hIHk
        rw [hIHk]
        have hhead : alookup ((k, qv) :: w') k = some qv := by
          simp [alookup]
        rw [hhead]
        simp only []
        rw [E]
        cases r with
        | none => rfl
        | some cl =>
          simp only [reconstructDoc]
          rw [alookup_assocSet_self]
      · have hfk : ¬f = k := fun he => hk he.symm
        have hcons : alookup ((f, qv) :: w') k = alookup w' k := by
          simp [alookup, hfk]
        rw [hcons]
        have := IH k
        rw [alookup_reconstructDoc_ne doc f k r hk] at this
        exact this

/-- Extensional equivalence of translation results: both throw, or both
succeed with filters agreeing on every key. -/
def optDocEquiv : Option MDoc → Option MDoc → Prop
  | some d₁, some d₂ => ∀ k, alookup d₁ k = alookup d₂ k
  | none, none => True
  | _, _ => False

theorem isEqOp_false_of_nonEq {op k : String} (h : nonEqNative? op = some k) :
    isEqOp op = false := by
  unfold isEqOp
  split
  · next h1 => subst h1; simp [nonEqNative?] at h
  · split
    · next h1 => subst h1; simp [nonEqNative?] at h
    · split
      · next h1 => subst h1; simp [nonEqNative?] at h
      · rfl

/-- The composed native sub-document for a criteria object of non-equality
table operators: each operator writes its native key, later writes to the
same native key win. -/
def composeOps (c : Criteria) : List (String × JSVal) :=
  c.foldl
    (fun acc p =>
      match nonEqNative? p.1 with
      | some k => assocSet acc k p.2
      | none => acc)
    []

theorem applyCriteria_nonEq_fold (f : String) :
    ∀ c : Criteria, (∀ p ∈ c, (nonEqNative? p.1).isSome) →
      ∀ l : List (String × JSVal),
        applyCriteria [(f, MClause.ops l)] f c =
          some [(f, MClause.ops (c.foldl (fun acc p =>
            match nonEqNative? p.1 with
            | some k => assocSet acc k p.2
            | none => acc) l))] := by
  intro c
  induction c with
  | nil =>
    intro _ l
    rfl
  | cons p t ih =>
    intro hall l
    obtain ⟨op, v⟩ := p
    obtain ⟨k, hk⟩ := Option.isSome_iff_exists.mp (hall (op, v) (List.mem_cons_self _ _))
    have he := isEqOp_false_of_nonEq hk
    have hall' : ∀ p ∈ t, (nonEqNative? p.1).isSome :=
      fun p hp => hall p (List.mem_cons_of_mem _ hp)
    have h1 : alookup [(f, MClause.ops l)] f = some (MClause.ops l) := by
      simp [alookup]
    have h2 : assocSet [(f, MClause.ops l)] f (MClause.ops (assocSet l k v)) =
        [(f, MClause.ops (assocSet l k v))] := by
      simp [assocSet]
    have step : applyOp [(f, MClause.ops l)] f op v =
        some [(f, MClause.ops (assocSet l k v))] := by
      simp only [applyOp, he, Bool.false_eq_true, if_false, hk, applyNonEq, h1, h2]
    have lhs : applyCriteria [(f, MClause.ops l)] f ((op, v) :: t) =
        applyCriteria [(f, MClause.ops (assocSet l k v))] f t := by
      simp only [applyCriteria, optFold, step]
    rw [lhs, ih hall' (assocSet l k v)]
    simp only [List.foldl_cons, hk]

theorem applyOp_unrecognized (doc : MDoc) (f op : String) (v : JSVal)
    (h : recognizedOp op = false) : applyOp doc f op v = some doc := by
  simp only [recognizedOp, Bool.or_eq_false_iff] at h
  obtain ⟨⟨h1, h2⟩, h3⟩ := h
  simp only [applyOp, h1, Bool.false_eq_true, if_false]
  cases e2 : nonEqNative? op with
  | some k =>
    rw [e2] at h2
    simp at h2
  | none =>
    cases e3 : orNative? op with
    | some x =>
      rw [e3] at h3
      simp at h3
    | none => rfl

/-! ## Claims about the query translator -/

/-- The concrete input query of claim C1:
`\x7bstatus: "active", age: \x7b">": 18\x7d, orderBy: "name", limit: 10\x7d`. -/
def c1Query : AbstractQuery :=
  { orderBy := some (.str "name"),
    limit := some (jnum 10),
    extras := [("status", .lit (jstr "active")), ("age", .criteria [(">", jnum 18)])] }

/-- Claim C1: for the query with `status: "active"`, `age: \x7b">": 18\x7d`,
`orderBy: "name"`, `limit: 10`, `getQuery` first folds the non-reserved
top-level keys into `where` as implicit-equality/operator clauses, and
returns the native filter `\x7bstatus: "active", age: \x7b$gt: 18\x7d\x7d`;
`getQueryOptions` returns `\x7bsort: [["name", "asc"]], limit: 10\x7d`. -/
theorem c1_getQuery_scenario :
    normalizedWhere c1Query =
      [("status", .criteria [("==", jstr "active")]),
       ("age", .criteria [(">", jnum 18)])] ∧
    getQuery c1Query =
      some [("status", .val (jstr "active")), ("age", .ops [("$gt", jnum 18)])] ∧
    getQueryOptions c1Query =
      { sort := some [("name", "asc")], skip := none, limit := some (.int 10) } :=
  ⟨rfl, rfl, by decide⟩

/-- Claim C2 (amended): the translation is order-independent across fields
when no `|`-prefixed (OR) operator occurs: for a `where` whose entries are
operator-objects without OR operators (or bare literals) and whose field
names are distinct, every permutation of the entries either throws in both
orders or yields native filters agreeing on every key.  (With OR operators
on more than one field the `$or` array order depends on field order — see
the counterexample.) -/
theorem c2_field_order_independent (w₁ w₂ : List (String × QVal))
    (hperm : w₁.Perm w₂) (hnd : (w₁.map Prod.fst).Nodup)
    (hno : ∀ p ∈ w₁, entryNoOr p.2 = true) :
    optDocEquiv (translateWhere w₁) (translateWhere w₂) := by
  have hnd₂ : (w₂.map Prod.fst).Nodup := ((hperm.map Prod.fst).nodup_iff).mp hnd
  have hno₂ : ∀ p ∈ w₂, entryNoOr p.2 = true :=
    fun p hp => hno p (hperm.mem_iff.mpr hp)
  have hiff : translateWhere w₁ = none ↔ translateWhere w₂ = none := by
    rw [show translateWhere w₁ = optFold applyEntry [] w₁ from rfl,
        show translateWhere w₂ = optFold applyEntry [] w₂ from rfl,
        translateFrom_none_iff w₁ [] hnd hno,
        translateFrom_none_iff w₂ [] hnd₂ hno₂]
    constructor
    · rintro ⟨p, hp, hE⟩
      exact ⟨p, hperm.mem_iff.mp hp, hE⟩
    · rintro ⟨p, hp, hE⟩
      exact ⟨p, hperm.mem_iff.mpr hp, hE⟩
  cases e₁ : translateWhere w₁ with
  | none =>
    rw [hiff.mp e₁]
    trivial
  | some d₁ =>
    cases e₂ : translateWhere w₂ with
    | none =>
      rw [hiff.mpr e₂] at e₁
      cases e₁
    | some d₂ =>
      show ∀ k, alookup d₁ k = alookup d₂ k
      intro k
      rw [translateFrom_alookup w₁ [] d₁ hnd hno e₁ k,
          translateFrom_alookup w₂ [] d₂ hnd₂ hno₂ e₂ k,
          alookup_perm hperm hnd k]

/-- Concrete `where` objects for the C2 witness: the same two non-OR
fields in both orders. -/
def c2w1 : List (String × QVal) :=
  [("status", .criteria [("==", jstr "active")]), ("age", .criteria [(">", jnum 18)])]

/-- The permutation of `c2w1`. -/
def c2w2 : List (String × QVal) :=
  [("age", .criteria [(">", jnum 18)]), ("status", .criteria [("==", jstr "active")])]

/-- Witness for the amended claim C2 at a concrete permuted pair. -/
theorem c2_field_order_independent_witness :
    c2w1.Perm c2w2 ∧ optDocEquiv (translateWhere c2w1) (translateWhere c2w2) :=
  have hp : c2w1.Perm c2w2 := List.Perm.swap _ _ _
  ⟨hp, c2_field_order_independent c2w1 c2w2 hp (by decide) (by decide)⟩

/-- Two fields carrying `|==` clauses, in both orders. -/
def c2OrW1 : List (String × QVal) :=
  [("a", .criteria [("|==", jnum 1)]), ("b", .criteria [("|==", jnum 2)])]

/-- The permutation of `c2OrW1`. -/
def c2OrW2 : List (String × QVal) :=
  [("b", .criteria [("|==", jnum 2)]), ("a", .criteria [("|==", jnum 1)])]

/-- Claim C2 counterexample: with OR operators on two fields, permuting the
fields reorders the `$or` array, so the produced native filter documents
are not identical (they differ at the key `$or`). -/
theorem c2_or_order_counterexample :
    c2OrW1.Perm c2OrW2 ∧
    translateWhere c2OrW1 =
      some [("$or", .orArr [.val "a" (jnum 1), .val "b" (jnum 2)])] ∧
    translateWhere c2OrW2 =
      some [("$or", .orArr [.val "b" (jnum 2), .val "a" (jnum 1)])] ∧
    ¬optDocEquiv (translateWhere c2OrW1) (translateWhere c2OrW2) := by
  refine ⟨List.Perm.swap _ _ _, rfl, rfl, ?_⟩
  intro h
  have h2 := h "$or"
  revert h2
  decide

/-- Claim C3 (amended): when every operator on a field comes from the
non-equality, non-OR part of the table (`!=`, `!==`, `notContains`, `>`,
`>=`, `<`, `<=`, `in`, `notIn`), they all compose into the same
field-indexed native sub-document, for any combination and order.  (An
equality operator in the mix instead overwrites the field with the bare
operand, or makes a later operator throw — see the counterexample.) -/
theorem c3_non_eq_ops_compose (f : String) (c : Criteria) (hne : c ≠ [])
    (hall : ∀ p ∈ c, (nonEqNative? p.1).isSome) :
    applyCriteria [] f c = some [(f, MClause.ops (composeOps c))] := by
  cases c with
  | nil => exact absurd rfl hne
  | cons p t =>
    obtain ⟨op, v⟩ := p
    obtain ⟨k, hk⟩ := Option.isSome_iff_exists.mp (hall (op, v) (List.mem_cons_self _ _))
    have he := isEqOp_false_of_nonEq hk
    have hall' : ∀ p ∈ t, (nonEqNative? p.1).isSome :=
      fun p hp => hall p (List.mem_cons_of_mem _ hp)
    have step : applyOp [] f op v = some [(f, MClause.ops [(k, v)])] := by
      simp only [applyOp, he, Bool.false_eq_true, if_false, hk, applyNonEq, alookup]
      rfl
    have lhs : applyCriteria [] f ((op, v) :: t) =
        applyCriteria [(f, MClause.ops [(k, v)])] f t := by
      simp only [applyCriteria, optFold, step]
    rw [lhs, applyCriteria_nonEq_fold f t hall' [(k, v)]]
    simp only [composeOps, List.foldl_cons, hk]
    rfl

/-- Witness for the amended claim C3 at the example of the claim:
`\x7b">": 18, "<=": 65\x7d` composes to `\x7b$gt: 18, $lte: 65\x7d`. -/
theorem c3_non_eq_ops_compose_witness :
    applyCriteria [] "age" [(">", jnum 18), ("<=", jnum 65)] =
      some [("age", MClause.ops [("$gt", jnum 18), ("$lte", jnum 65)])] :=
  c3_non_eq_ops_compose "age" [(">", jnum 18), ("<=", jnum 65)]
    (by decide) (by decide)

/-- Claim C3 counterexample: combinations containing an equality operator
do not compose into a sub-document.  With `\x7b">": 18, "==": 5\x7d` the
equality overwrites the field with the bare operand `5`, losing the `$gt`
clause; in the other order, `\x7b"==": 5, ">": 18\x7d`, the `>` operator
throws a `TypeError` (property write on a truthy primitive). -/
theorem c3_eq_op_counterexample :
    applyCriteria [] "age" [(">", jnum 18), ("==", jnum 5)] =
      some [("age", MClause.val (jnum 5))] ∧
    applyCriteria [] "age" [("==", jnum 5), (">", jnum 18)] = none :=
  ⟨rfl, rfl⟩

/-- Claim C8: a pair whose operator is not in the table (neither an
equality/comparison operator nor a `|` variant) emits no native clause and
raises no error: translation of a criteria object containing it equals
translation of the object with the pair removed, from any starting
document. -/
theorem c8_unrecognized_ops_ignored (op : String) (v : JSVal)
    (hop : recognizedOp op = false) :
    ∀ (c₁ : Criteria) (doc : MDoc) (f : String) (c₂ : Criteria),
      applyCriteria doc f (c₁ ++ (op, v) :: c₂) = applyCriteria doc f (c₁ ++ c₂) := by
  intro c₁
  induction c₁ with
  | nil =>
    intro doc f c₂
    simp only [List.nil_append, applyCriteria, optFold,
      applyOp_unrecognized doc f op v hop]
  | cons p t ih =>
    intro doc f c₂
    simp only [List.cons_append, applyCriteria, optFold]
    cases e : applyOp doc f p.1 p.2 with
    | none => rfl
    | some d =>
      have := ih d f c₂
      simp only [applyCriteria] at this
      exact this

/-- Witness for claim C8: the unrecognized operator `like` is dropped. -/
theorem c8_unrecognized_ops_ignored_witness :
    recognizedOp "like" = false ∧
    applyCriteria [] "name" [("like", jstr "bob"), (">=", jnum 2)] =
      applyCriteria [] "name" [(">=", jnum 2)] :=
  ⟨by decide,
   c8_unrecognized_ops_ignored "like" (jstr "bob") (by decide) [] [] "name"
     [(">=", jnum 2)]⟩

/-! ## Mapper, identifier coercion, records -/

/-- The collection metadata consumed by the adapter (an opaque descriptor
owned by the caller): logical name, optional explicit table name, the
identifier attribute, and the set of relation-owned field names stripped
from written payloads. -/
structure Mapper where
  name : String
  table : Option String := none
  idAttribute : String := "_id"
  relationFields : List String := []
  deriving DecidableEq, Repr

/-- Model of `mout/string/underscore` for camel-cased names: an underscore
is inserted between a lower-case letter and the upper-case letter that
follows it, and everything is lower-cased. -/
def underscoreAux : Char → List Char → List Char
  | _, [] => []
  | prev, c :: rest =>
    if prev.isLower && c.isUpper then '_' :: c.toLower :: underscoreAux c rest
    else c.toLower :: underscoreAux c rest

/-- Snake-cased form of a logical name. -/
def underscoreName (s : String) : String :=
  match s.data with
  | [] => ""
  | c :: rest => String.mk (c.toLower :: underscoreAux c rest)

/-- `mapper.table || underscore(mapper.name)`: the native collection
name. -/
def collectionName (m : Mapper) : String :=
  m.table.getD (underscoreName m.name)

/-- A hexadecimal digit, as accepted by `bson.ObjectID.isValid`. -/
def isHexChar (c : Char) : Bool :=
  c.isDigit || ('a' ≤ c && c ≤ 'f') || ('A' ≤ c && c ≤ 'F')

/-- `bson.ObjectID.isValid`: a 12-byte string, or 24 hex characters. -/
def isValidObjectIdString (s : String) : Bool :=
  s.length == 12 || (s.length == 24 && s.data.all isHexChar)

/-- `MongoDBAdapter#toObjectID` on a primitive: a string is converted to an
ObjectID when the identifier attribute is the native `_id` field and the
string is a valid ObjectID string; everything else passes through. -/
def coercePrim (m : Mapper) (p : JSPrim) : JSPrim :=
  match p with
  | .str s =>
    if m.idAttribute = "_id" && isValidObjectIdString s then .oid s else .str s
  | _ => p

/-- `MongoDBAdapter#toObjectID` (only string values are eligible; the
`typeof id === "string"` guard excludes arrays and existing ObjectIDs). -/
def toObjectID (m : Mapper) (id : JSVal) : JSVal :=
  match id with
  | .prim p => .prim (coercePrim m p)
  | v => v

/-- A record: a mapping from field name to value. -/
abbrev Rec := List (String × JSVal)

/-- The store: a mapping from native collection name to its records. -/
abbrev Store := List (String × List Rec)

/-- The records of a collection (an absent collection is empty). -/
def collOf (store : Store) (cname : String) : List Rec :=
  (alookup store cname).getD []

/-- Replace a collection's records in the store. -/
def storeSet (store : Store) (cname : String) (recs : List Rec) : Store :=
  assocSet store cname recs

/-- `MongoDBAdapter#_translateId` on one record, given the `translateId`
option: a truthy `_id` is replaced by its string form (`_id.toString()` is
always a string, so the `typeof` guard passes); a falsy `_id` is left
unchanged (for the empty string the guard assigns the identical value). -/
def translateIdRec (flag : Bool) (r : Rec) : Rec :=
  if flag then
    match alookup r "_id" with
    | some v => if jsTruthy v then assocSet r "_id" (jstr (jsToStr v)) else r
    | none => r
  else r

/-- `withoutRelations`: strip relation-owned fields from a written
payload. -/
def withoutRelations (m : Mapper) (props : List (String × JSVal)) :
    List (String × JSVal) :=
  props.filter (fun p => !m.relationFields.contains p.1)

/-! ## Store-side semantics

The MongoDB server is an external collaborator; the following functions
model its filter matching and `$set` application, restricted to the filter
shapes this adapter emits (equality, the `$`-operator table, `$or`). -/

/-- Mongo equality match of a stored field value against a filter value:
direct equality, array-membership for array-valued fields, and a missing
field matches `null`. -/
def fieldMatchesVal (fv : Option JSVal) (v : JSVal) : Bool :=
  match fv with
  | none => v == .prim .null
  | some x =>
    x == v ||
      (match x, v with
       | .arr l, .prim p => l.contains p
       | _, _ => false)

/-- Ordering of two primitives for the comparison operators: numbers with
numbers and strings with strings; other combinations never match. -/
def primOrd : JSPrim → JSPrim → Option Ordering
  | .num a, .num b => some (compare a b)
  | .str a, .str b => some (compare a b)
  | _, _ => none

/-- Comparison of a stored field against an operand (array fields match if
any element does). -/
def evalCmp (fv : Option JSVal) (v : JSVal) (test : Ordering → Bool) : Bool :=
  match fv, v with
  | some (.prim a), .prim b =>
    match primOrd a b with
    | some o => test o
    | none => false
  | some (.arr l), .prim b =>
    l.any (fun a =>
      match primOrd a b with
      | some o => test o
      | none => false)
  | _, _ => false

/-- One native `$` operator evaluated against a stored field value. -/
def evalNativeOp (fv : Option JSVal) : String × JSVal → Bool
  | ("$ne", v) => !fieldMatchesVal fv v
  | ("$gt", v) => evalCmp fv v (fun o => o == .gt)
  | ("$gte", v) => evalCmp fv v (fun o => o != .lt)
  | ("$lt", v) => evalCmp fv v (fun o => o == .lt)
  | ("$lte", v) => evalCmp fv v (fun o => o != .gt)
  | ("$in", .arr l) =>
    (match fv with
     | some (.prim p) => l.contains p
     | some (.arr xs) => xs.any l.contains
     | none => l.contains .null)
  | ("$nin", .arr l) =>
    !(match fv with
      | some (.prim p) => l.contains p
      | some (.arr xs) => xs.any l.contains
      | none => l.contains .null)
  | (_, _) => false

/-- One `$or` disjunct evaluated against a record. -/
def orItemMatches (r : Rec) : OrItem → Bool
  | .val f v => fieldMatchesVal (alookup r f) v
  | .op f k v => evalNativeOp (alookup r f) (k, v)

/-- One filter clause evaluated against a record. -/
def evalClause (r : Rec) : String × MClause → Bool
  | (f, .val v) => fieldMatchesVal (alookup r f) v
  | (f, .ops l) => l.all (evalNativeOp (alookup r f))
  | (_, .orArr items) => items.any (orItemMatches r)

/-- Whether a record matches a native filter document. -/
def matchFilter (d : MDoc) (r : Rec) : Bool :=
  d.all (evalClause r)

/-- `$set` application: each property of the update payload is written
onto the record. -/
def applySet (props : List (String × JSVal)) (r : Rec) : Rec :=
  props.foldl (fun acc p => assocSet acc p.1 p.2) r

/-- `updateOne`: apply `$set` to the first matching record only. -/
def updateFirst (recs : List Rec) (mq : MDoc) (props : List (String × JSVal)) :
    List Rec :=
  match recs with
  | [] => []
  | r :: t =>
    if matchFilter mq r then applySet props r :: t
    else r :: updateFirst t mq props

/-- `updateMany` with `multi: true`: apply `$set` to every matching
record. -/
def updateMatching (recs : List Rec) (mq : MDoc) (props : List (String × JSVal)) :
    List Rec :=
  recs.map (fun r => if matchFilter mq r then applySet props r else r)

/-! ## Relationship descriptors and observable events -/

/-- Relation kinds. -/
inductive RelType where
  | hasOne
  | hasMany
  | belongsTo
  deriving DecidableEq, Repr

/-- A relationship descriptor: the kind is determined by which key fields
are populated, exactly as the adapter dispatches on them. -/
structure RelDef where
  rtype : RelType
  related : Mapper
  foreignKey : Option String := none
  localKeys : Option String := none
  foreignKeys : Option String := none
  localField : String
  deriving DecidableEq, Repr

/-- The branch of the adapter's relation dispatch chain a descriptor
selects: `foreignKey` with hasOne/hasMany first, then hasMany+localKeys,
then hasMany+foreignKeys, then belongsTo, else nothing. -/
inductive RelTask where
  | fkOne (fk : String)
  | fkMany (fk : String)
  | lk (lkField : String)
  | fks (fkField : String)
  | bt
  deriving DecidableEq, Repr

/-- The dispatch chain of `find`/`findAll` over one descriptor. -/
def relDispatch (d : RelDef) : Option RelTask :=
  match d.foreignKey, d.rtype with
  | some fk, .hasOne => some (.fkOne fk)
  | some fk, .hasMany => some (.fkMany fk)
  | _, _ =>
    match d.rtype, d.localKeys with
    | .hasMany, some lkf => some (.lk lkf)
    | _, _ =>
      match d.rtype, d.foreignKeys with
      | .hasMany, some fkf => some (.fks fkf)
      | _, _ => if d.rtype = .belongsTo then some .bt else none

/-- Observable actions of an operation, in order: lifecycle hook
invocations and the queries/writes issued to the store. -/
inductive Event where
  | beforeHook (name : String)
  | afterHook (name : String)
  | findOneQ (cname : String) (filter : MDoc)
  | findQ (cname : String) (filter : MDoc)
  | updateQ (cname : String) (filter : MDoc) (setDoc : List (String × JSVal))
  deriving DecidableEq, Repr

/-- The event trace of one operation. -/
abbrev Trace := List Event

/-! ## Key containers and the localKeys pipeline -/

/-- `itemKeys = item[localKeys] || []; isArray(itemKeys) ? itemKeys :
Object.keys(itemKeys)`: a falsy value gives no keys, an array gives its
elements, a non-empty string gives its index strings; numbers and booleans
have no enumerable keys.  (Enumerable properties of an ObjectID container
are outside the modelled domain.) -/
def containerKeys (v : JSVal) : List JSPrim :=
  match v with
  | .arr l => l
  | .prim (.str s) =>
    if s.isEmpty then []
    else (List.range s.length).map (fun i => .str (toString i))
  | .prim _ => []

/-- `mout/array/unique`: removes an element when an equal one occurs later,
so the last occurrence is kept. -/
def uniqueLast : List JSPrim → List JSPrim
  | [] => []
  | x :: t => if t.contains x then uniqueLast t else x :: uniqueLast t

/-- The localKeys key pipeline:
`unique(keys).filter(truthy).map(toObjectID related)`. -/
def lkMapKeys (mm : Mapper) (ks : List JSPrim) : List JSPrim :=
  ((uniqueLast ks).filter primTruthy).map (coercePrim mm)

/-- The related query the localKeys paths build:
`\x7bwhere: \x7b[idAttribute]: \x7bin: ids\x7d\x7d\x7d`. -/
def inIdsQueryWhere (mm : Mapper) (ids : List JSPrim) : AbstractQuery :=
  { whereQ := some [(mm.idAttribute, .criteria [("in", .arr ids)])] }

/-- A nested `findAll` against a related collection, with no further
relations in scope: translate the query, filter the collection, translate
ids.  Nested lifecycle hooks are not recorded in the trace; the `none`
branch (a throwing query) is unreachable for the queries the relation
paths construct. -/
def relFindAll (mm : Mapper) (store : Store) (q : AbstractQuery) (flag : Bool) :
    List Rec × Trace :=
  match getQuery q with
  | none => ([], [])
  | some mq =>
    (((collOf store (collectionName mm)).filter (matchFilter mq)).map
       (translateIdRec flag),
     [.findQ (collectionName mm) mq])

/-- A record of a read response together with its resolved relations.  The
modelled value domain has no nested objects, so what `def.setLocalField`
stores under `def.localField` is kept beside the record. -/
structure OutRec where
  base : Rec
  attached : List (String × List Rec) := []
  deriving DecidableEq, Repr

/-- Attach a per-record column of related records under a local field. -/
def attachRel (out : List OutRec) (fieldName : String) (cols : List (List Rec)) :
    List OutRec :=
  (out.zip cols).map
    (fun p => { p.1 with attached := p.1.attached ++ [(fieldName, p.2)] })

/-- The parent record's identifier value. -/
def idValOf (m : Mapper) (r : Rec) : JSVal :=
  (alookup r m.idAttribute).getD (.prim .null)

/-- `hasOne` keeps only the single match of a foreign-key load. -/
def takeIf (single : Bool) (l : List Rec) : List Rec :=
  if single then l.take 1 else l

/-- The related records matching one parent in a foreign-key load. -/
def fkMatchesOf (fk : String) (fetched : List Rec) (pid : JSVal) : List Rec :=
  fetched.filter (fun ri => fieldMatchesVal (alookup ri fk) pid)

/-- Modelled from the spec: `loadHasOne`/`loadHasMany` live in the base
adapter (`js-data-adapter`, not part of this repository).  Per the spec,
they fetch related records whose foreign-key field equals a parent's
identifier (coerced to a native id as needed) with one related query for
the batch, and attach matches per parent (hasOne takes the single match). -/
def fkBatch (m : Mapper) (d : RelDef) (fk : String) (store : Store) (flag : Bool)
    (recs : List Rec) (single : Bool) : List (List Rec) × Trace :=
  let ids := recs.filterMap (fun r =>
    match alookup r m.idAttribute with
    | some (JSVal.prim p) => some (coercePrim d.related p)
    | _ => none)
  let fetched := relFindAll d.related store
    { whereQ := some [(fk, .criteria [("in", .arr ids)])] } flag
  (recs.map (fun r =>
    takeIf single (fkMatchesOf fk fetched.1 (toObjectID d.related (idValOf m r)))),
   fetched.2)

/-- The single related record a belongsTo parent receives, keyed by its
stored (coerced) foreign-key value; a missing or falsy key attaches
nothing. -/
def btColOf (d : RelDef) (fetched : List Rec) (fkv : Option JSVal) : List Rec :=
  match fkv with
  | some (JSVal.prim p) =>
    if primTruthy p then
      (fetched.filter (fun ri =>
        alookup ri d.related.idAttribute ==
          some (.prim (coercePrim d.related p)))).take 1
    else []
  | _ => []

/-- Modelled from the spec: `loadBelongsTo` lives in the base adapter
(`js-data-adapter`, not part of this repository).  Per the spec, it fetches
the related record keyed by the parent's stored foreign-key value, coerced
via the overridden `makeBelongsToForeignKey` (which applies `toObjectID`);
a missing/falsy key leaves the relation unset. -/
def btBatch (_m : Mapper) (d : RelDef) (store : Store) (flag : Bool)
    (recs : List Rec) : List (List Rec) × Trace :=
  let fkName := d.foreignKey.getD ""
  let keys := recs.filterMap (fun r =>
    match alookup r fkName with
    | some (JSVal.prim p) => if primTruthy p then some (coercePrim d.related p) else none
    | _ => none)
  let fetched := relFindAll d.related store
    { whereQ := some [(d.related.idAttribute, .criteria [("in", .arr keys)])] } flag
  (recs.map (fun r => btColOf d fetched.1 (alookup r fkName)), fetched.2)

/-- All localKeys of a batch of parents, concatenated in record order. -/
def lkAllKeys (recs : List Rec) (lkf : String) : List JSPrim :=
  recs.foldl (fun acc r => acc ++ containerKeys ((alookup r lkf).getD (.arr []))) []

/-- Per-parent filtering of the fetched localKeys superset: a related item
is attached to a parent when the parent's key container holds the item's
identifier (`itemKeys.indexOf(relatedItem[idAttribute]) !== -1`). -/
def lkBatchCols (mm : Mapper) (recs : List Rec) (lkf : String)
    (relatedItems : List Rec) : List (List Rec) :=
  recs.map (fun item =>
    let itemKeys := containerKeys ((alookup item lkf).getD (.arr []))
    relatedItems.filter (fun ri =>
      match alookup ri mm.idAttribute with
      | some (.prim p) => itemKeys.contains p
      | _ => false))

/-- The relation tasks of a single-record `find` (source lines 514-554):
foreignKey loads delegate to the base adapter, the localKeys path issues
one related in-query and attaches the whole fetch, the foreignKeys
(many-to-many) path issues one `contains` query over the parent id. -/
def runRelSingle (m : Mapper) (store : Store) (flag : Bool) (r : Rec) (d : RelDef) :
    List (String × List Rec) × Trace :=
  match relDispatch d with
  | none => ([], [])
  | some (.fkOne fk) =>
    let res := fkBatch m d fk store flag [r] true
    ([(d.localField, res.1.headD [])], res.2)
  | some (.fkMany fk) =>
    let res := fkBatch m d fk store flag [r] false
    ([(d.localField, res.1.headD [])], res.2)
  | some (.lk lkf) =>
    let itemKeys := containerKeys ((alookup r lkf).getD (.arr []))
    let keys := lkMapKeys d.related itemKeys
    let fetched := relFindAll d.related store (inIdsQueryWhere d.related keys) flag
    ([(d.localField, fetched.1)], fetched.2)
  | some (.fks fkf) =>
    let pid := idValOf m r
    let fetched := relFindAll d.related store
      { whereQ := some [(fkf, .criteria [("contains", pid)])] } flag
    ([(d.localField, fetched.1)], fetched.2)
  | some .bt =>
    let res := btBatch m d store flag [r]
    ([(d.localField, res.1.headD [])], res.2)

/-! ## The operation models -/

/-- The result of a single-record read: the payload (a record or
`undefined`) and the `found` count. -/
structure FindResult where
  payload : Option OutRec
  found : Nat
  deriving DecidableEq, Repr

/-- `MongoDBAdapter#find`: build `\x7b[idAttribute]: toObjectID(id)\x7d`,
`findOne`, and — only when a record was found — translate its id and run
the relation tasks; the response carries the record (or `undefined`) and
`found` of 1 or 0.  Hooks are the base adapter's default no-ops; their
invocations are recorded in the trace. -/
def runRelsSingle (m : Mapper) (store : Store) (flag : Bool) (r : Rec)
    (rels : List RelDef) : List (String × List Rec) × Trace :=
  rels.foldl
    (fun acc d =>
      let res := runRelSingle m store flag r d
      (acc.1 ++ res.1, acc.2 ++ res.2))
    (([] : List (String × List Rec)), ([] : Trace))

/-- `MongoDBAdapter#find`: build the id filter, `findOne`, and — only when
a record was found — translate its id and run the relation tasks; the
response carries the record (or `undefined`) and `found` of 1 or 0.  Hooks
are the base adapter's default no-ops; their invocations are recorded in
the trace. -/
def findModel (m : Mapper) (store : Store) (id : JSVal) (rels : List RelDef)
    (flag : Bool) : Except String FindResult × Trace :=
  let mq : MDoc := [(m.idAttribute, .val (toObjectID m id))]
  let tr0 : Trace := [.beforeHook "beforeFind", .findOneQ (collectionName m) mq]
  match (collOf store (collectionName m)).find? (matchFilter mq) with
  | none => (.ok { payload := none, found := 0 }, tr0 ++ [.afterHook "afterFind"])
  | some r0 =>
    let r := translateIdRec flag r0
    let att := runRelsSingle m store flag r rels
    (.ok { payload := some { base := r, attached := att.1 }, found := 1 },
     tr0 ++ att.2 ++ [.afterHook "afterFind"])

/-- `skip`/`limit` of the native find options applied by the store model
(the `sort` option is not interpreted: no claim depends on result order of
a sorted read). -/
def applyFindOpts (recs : List Rec) (qo : QueryOptions) : List Rec :=
  let r1 :=
    match qo.skip with
    | some (.int n) => recs.drop n.toNat
    | _ => recs
  match qo.limit with
  | some (.int n) => r1.take n.toNat
  | _ => r1

/-- The result of a bulk read: payload records and the `found` count. -/
structure FindAllResult where
  payload : List OutRec
  found : Nat
  deriving DecidableEq, Repr

/-- The relation loop of `findAll` (source lines 612-660): descriptors in
order, each kind issuing its batch query and attaching per parent; the
hasMany-by-foreignKeys kind throws, aborting the read (tasks already
launched keep their trace). -/
def processRels (m : Mapper) (store : Store) (flag : Bool) :
    List OutRec → List RelDef → Except String (List OutRec) × Trace
  | out, [] => (.ok out, [])
  | out, d :: rest =>
    match relDispatch d with
    | none => processRels m store flag out rest
    | some (.fks _) =>
      (.error "findAll eager load hasMany foreignKeys not supported!", [])
    | some (.fkOne fk) =>
      let res := fkBatch m d fk store flag (out.map OutRec.base) true
      let next := processRels m store flag (attachRel out d.localField res.1) rest
      (next.1, res.2 ++ next.2)
    | some (.fkMany fk) =>
      let res := fkBatch m d fk store flag (out.map OutRec.base) false
      let next := processRels m store flag (attachRel out d.localField res.1) rest
      (next.1, res.2 ++ next.2)
    | some (.lk lkf) =>
      let recs := out.map OutRec.base
      let keys := lkMapKeys d.related (lkAllKeys recs lkf)
      let fetched := relFindAll d.related store (inIdsQueryWhere d.related keys) flag
      let cols := lkBatchCols d.related recs lkf fetched.1
      let next := processRels m store flag (attachRel out d.localField cols) rest
      (next.1, fetched.2 ++ next.2)
    | some .bt =>
      let res := btBatch m d store flag (out.map OutRec.base)
      let next := processRels m store flag (attachRel out d.localField res.1) rest
      (next.1, res.2 ++ next.2)

/-- The base records of a bulk read: the collection filtered by the native
query, find options applied, ids translated. -/
def findAllBaseRecs (m : Mapper) (store : Store) (q : AbstractQuery) (mq : MDoc)
    (flag : Bool) : List Rec :=
  (applyFindOpts ((collOf store (collectionName m)).filter (matchFilter mq))
    (getQueryOptions q)).map (translateIdRec flag)

/-- Assembly of the bulk-read response from the relation-loop outcome. -/
def findAllAssemble (cname : String) (mq : MDoc)
    (pr : Except String (List OutRec) × Trace) : Except String FindAllResult × Trace :=
  match pr with
  | (.error e, tr1) =>
    (.error e, [.beforeHook "beforeFindAll", .findQ cname mq] ++ tr1)
  | (.ok out, tr1) =>
    (.ok { payload := out, found := out.length },
     [.beforeHook "beforeFindAll", .findQ cname mq] ++ tr1 ++ [.afterHook "afterFindAll"])

/-- `MongoDBAdapter#findAll`: translate the query and options, read the
matching records, translate ids, resolve relations, and respond with the
records and their count. -/
def findAllModel (m : Mapper) (store : Store) (q : AbstractQuery)
    (rels : List RelDef) (flag : Bool) : Except String FindAllResult × Trace :=
  match getQuery q with
  | none => (.error "TypeError", [])
  | some mq =>
    findAllAssemble (collectionName m) mq
      (processRels m store flag
        ((findAllBaseRecs m store q mq flag).map (fun r => ({ base := r } : OutRec)))
        rels)

/-- The result of a single-record update. -/
structure UpdateResult where
  payload : Option OutRec
  updated : Nat
  deriving DecidableEq, Repr

/-- `MongoDBAdapter#update`: pre-read via `find`; a missing record throws
`Not Found` before the `beforeUpdate` hook and before any write; otherwise
strip relation fields, `updateOne` with `$set`, re-read via `find`, and
respond with the re-read record and `updated = 1`. -/
def updateModel (m : Mapper) (store : Store) (id : JSVal)
    (props : List (String × JSVal)) (flag : Bool) :
    Except String UpdateResult × Store × Trace :=
  let pre := findModel m store id [] flag
  match pre.1 with
  | .error e => (.error e, store, pre.2)
  | .ok res =>
    match res.payload with
    | none => (.error "Not Found", store, pre.2)
    | some _ =>
      let tr2 := pre.2 ++ [Event.beforeHook "beforeUpdate"]
      let props' := withoutRelations m props
      let mq : MDoc := [(m.idAttribute, .val (toObjectID m id))]
      let cname := collectionName m
      let store' := storeSet store cname (updateFirst (collOf store cname) mq props')
      let tr3 := tr2 ++ [Event.updateQ cname mq props']
      let post := findModel m store' id [] flag
      match post.1 with
      | .error e => (.error e, store', tr3 ++ post.2)
      | .ok res2 =>
        (.ok { payload := res2.payload, updated := 1 }, store',
         tr3 ++ post.2 ++ [Event.afterHook "afterUpdate"])

/-- `raw`-less payload extraction of a bulk read. -/
def okPayload : Except String FindAllResult → List OutRec
  | .ok r => r.payload
  | .error _ => []

/-- A record's identifier as a primitive (non-primitive identifier values
are outside the modelled domain). -/
def idPrimOf (m : Mapper) (r : Rec) : JSPrim :=
  match alookup r m.idAttribute with
  | some (.prim p) => p
  | _ => .null

/-- The second-read query `updateAll` builds: a fresh query object with the
identifier attribute as a top-level key, `\x7bin: ids\x7d`. -/
def inIdsQueryTop (m : Mapper) (ids : List JSPrim) : AbstractQuery :=
  { extras := [(m.idAttribute, .criteria [("in", .arr ids)])] }

/-- `updateAll` passes `getQueryOptions(query)` as the native update
document (with `$set` added); the store rejects an update document that
carries non-operator keys, so the model requires it empty. -/
def updateDocOk (qo : QueryOptions) : Bool :=
  qo.sort.isNone && qo.skip.isNone && qo.limit.isNone

/-- The identifier set captured by `updateAll`'s first read:
`records.map(record => toObjectID(mapper, record[idAttribute]))`. -/
def updateAllIds (m : Mapper) (store : Store) (q : AbstractQuery) (flag : Bool) :
    List JSPrim :=
  (okPayload (findAllModel m store q [] flag).1).map
    (fun o => coercePrim m (idPrimOf m o.base))

/-- The store after `updateAll`'s multi-record native update. -/
def updateAllPostStore (m : Mapper) (store : Store)
    (props : List (String × JSVal)) (mq : MDoc) : Store :=
  storeSet store (collectionName m)
    (updateMatching (collOf store (collectionName m)) mq (withoutRelations m props))

/-- `MongoDBAdapter#updateAll`: translate the query, run the
`beforeUpdateAll` hook, read the matching records to capture their
identifier set, run one multi-record native update, re-read by that
identifier set, and respond with the re-read records and their count. -/
def updateAllModel (m : Mapper) (store : Store) (props : List (String × JSVal))
    (q : AbstractQuery) (flag : Bool) :
    Except String (List OutRec × Nat) × Store × Trace :=
  match getQuery q with
  | none => (.error "TypeError", store, [])
  | some mq =>
    let tr0 : Trace := [.beforeHook "beforeUpdateAll"]
    let first := findAllModel m store q [] flag
    match first.1 with
    | .error e => (.error e, store, tr0 ++ first.2)
    | .ok _ =>
      let ids := updateAllIds m store q flag
      if updateDocOk (getQueryOptions q) then
        let store' := updateAllPostStore m store props mq
        let tr2 : Trace := [.updateQ (collectionName m) mq (withoutRelations m props)]
        let second := findAllModel m store' (inIdsQueryTop m ids) [] flag
        match second.1 with
        | .error e => (.error e, store', tr0 ++ first.2 ++ tr2 ++ second.2)
        | .ok res2 =>
          (.ok (res2.payload, res2.payload.length), store',
           tr0 ++ first.2 ++ tr2 ++ second.2 ++ [.afterHook "afterUpdateAll"])
      else
        (.error "MongoError", store,
         tr0 ++ first.2 ++ [.updateQ (collectionName m) mq (withoutRelations m props)])

/-- `MongoDBAdapter#updateMany`: `throw new Error("not supported!")`,
unconditionally, before touching the store. -/
def updateManyModel (_m : Mapper) (_records : List Rec) (store : Store) :
    Except String Unit × Store × Trace :=
  (.error "not supported!", store, [])

/-! ## Claims about the operation executors -/

/-- The native filter a single-record read sends to `findOne`. -/
def findIdFilter (m : Mapper) (id : JSVal) : MDoc :=
  [(m.idAttribute, .val (toObjectID m id))]

/-- The trace of a single-record read that matched nothing. -/
def findMissTrace (m : Mapper) (id : JSVal) : Trace :=
  [.beforeHook "beforeFind",
   .findOneQ (collectionName m) (findIdFilter m id),
   .afterHook "afterFind"]

theorem findModel_not_found (m : Mapper) (store : Store) (id : JSVal)
    (rels : List RelDef) (flag : Bool)
    (h : (collOf store (collectionName m)).find? (matchFilter (findIdFilter m id)) = none) :
    findModel m store id rels flag =
      (.ok { payload := none, found := 0 }, findMissTrace m id) := by
  unfold findModel
  rw [show ([(m.idAttribute, MClause.val (toObjectID m id))] : MDoc) = findIdFilter m id
        from rfl]
  simp only [h]
  rfl

/-- Claim C10: when `find` matches no record, the call resolves
successfully (no rejection), relationship resolution is skipped entirely —
the trace holds no related-collection query, only the one `findOne` on the
mapper's own collection — and the envelope has an `undefined` payload with
`found = 0`. -/
theorem c10_find_miss_resolves (m : Mapper) (store : Store) (id : JSVal)
    (rels : List RelDef) (flag : Bool)
    (h : (collOf store (collectionName m)).find? (matchFilter (findIdFilter m id)) = none) :
    findModel m store id rels flag =
      (.ok { payload := none, found := 0 }, findMissTrace m id) ∧
    ∀ cname filter, Event.findQ cname filter ∉ findMissTrace m id := by
  refine ⟨findModel_not_found m store id rels flag h, ?_⟩
  intro cname filter hmem
  simp [findMissTrace] at hmem

/-- A mapper for the concrete executor witnesses. -/
def wMapper : Mapper := { name := "user" }

/-- A relation descriptor for the concrete executor witnesses. -/
def wRel : RelDef :=
  { rtype := .hasMany, related := { name := "post" },
    foreignKey := some "userId", localField := "posts" }

/-- Witness for claim C10 on an empty store with a relation in scope. -/
theorem c10_find_miss_resolves_witness :
    findModel wMapper [] (jstr "abc123") [wRel] true =
      (.ok { payload := none, found := 0 }, findMissTrace wMapper (jstr "abc123")) ∧
    ∀ cname filter, Event.findQ cname filter ∉ findMissTrace wMapper (jstr "abc123") :=
  c10_find_miss_resolves wMapper [] (jstr "abc123") [wRel] true rfl

/-- Claim C5: update of an id with no matching record fails with
`Not Found` raised by the pre-read: the result is that error, the store is
returned unchanged, and the trace — exactly the pre-read's — contains no
`beforeUpdate` hook invocation and no write. -/
theorem c5_update_notfound (m : Mapper) (store : Store) (id : JSVal)
    (props : List (String × JSVal)) (flag : Bool)
    (h : (collOf store (collectionName m)).find? (matchFilter (findIdFilter m id)) = none) :
    updateModel m store id props flag = (.error "Not Found", store, findMissTrace m id) ∧
    Event.beforeHook "beforeUpdate" ∉ findMissTrace m id ∧
    ∀ cname filter setDoc, Event.updateQ cname filter setDoc ∉ findMissTrace m id := by
  refine ⟨?_, ?_, ?_⟩
  · unfold updateModel
    rw [findModel_not_found m store id [] flag h]
  · intro hmem
    simp [findMissTrace] at hmem
  · intro cname filter setDoc hmem
    simp [findMissTrace] at hmem

/-- Witness for claim C5 on a store whose collection lacks the id. -/
theorem c5_update_notfound_witness :
    updateModel wMapper [("user", [[("_id", jstr "other")]])] (jstr "missing")
        [("x", jnum 1)] true =
      (.error "Not Found", [("user", [[("_id", jstr "other")]])],
       findMissTrace wMapper (jstr "missing")) ∧
    Event.beforeHook "beforeUpdate" ∉ findMissTrace wMapper (jstr "missing") ∧
    ∀ cname filter setDoc,
      Event.updateQ cname filter setDoc ∉ findMissTrace wMapper (jstr "missing") :=
  c5_update_notfound wMapper [("user", [[("_id", jstr "other")]])] (jstr "missing")
    [("x", jnum 1)] true (by decide)

/-! ## The identifier-translation invariant (claim C9) -/

/-- The identifier invariant `_translateId` actually establishes on a
record: the `_id` value is never the native ObjectID type, and whenever it
is truthy it is a string.  (A falsy identifier — `0`, `false`, `null` —
passes through untranslated, which is why the invariant cannot promise a
string outright; see the C9 counterexample.) -/
def recIdClean (r : Rec) : Prop :=
  (∀ s, alookup r "_id" ≠ some (.prim (.oid s))) ∧
  (∀ v, alookup r "_id" = some v → jsTruthy v = true → ∃ s, v = jstr s)

/-- A read-payload record and all its attached related records satisfy the
invariant. -/
def outRecClean (o : OutRec) : Prop :=
  recIdClean o.base ∧ ∀ p ∈ o.attached, ∀ r ∈ p.2, recIdClean r

/-- The invariant on a single-record read result. -/
def findClean : Except String FindResult → Prop
  | .ok fr => ∀ o, fr.payload = some o → outRecClean o
  | .error _ => True

/-- The invariant on a bulk read result. -/
def findAllClean : Except String FindAllResult → Prop
  | .ok fr => ∀ o ∈ fr.payload, outRecClean o
  | .error _ => True

/-- The invariant on the relation-loop outcome. -/
def relsOutClean : Except String (List OutRec) → Prop
  | .ok out => ∀ o ∈ out, outRecClean o
  | .error _ => True

theorem translateIdRec_idClean (r : Rec) : recIdClean (translateIdRec true r) := by
  have hred : translateIdRec true r =
      (match alookup r "_id" with
       | some v => if jsTruthy v then assocSet r "_id" (jstr (jsToStr v)) else r
       | none => r) := by
    unfold translateIdRec
    rfl
  rw [hred]
  cases e : alookup r "_id" with
  | none =>
    simp only []
    constructor
    · intro s hEq
      rw [e] at hEq
      cases hEq
    · intro v hEq
      rw [e] at hEq
      cases hEq
  | some v =>
    simp only []
    by_cases ht : jsTruthy v = true
    · rw [if_pos ht]
      constructor
      · intro s hEq
        rw [alookup_assocSet_self] at hEq
        simp [jstr] at hEq
      · intro v2 hEq _
        rw [alookup_assocSet_self] at hEq
        exact ⟨jsToStr v, (Option.some.inj hEq).symm⟩
    · rw [if_neg ht]
      constructor
      · intro s hEq
        rw [e] at hEq
        have hv := Option.some.inj hEq
        rw [hv] at ht
        exact ht rfl
      · intro v2 hEq htr
        rw [e] at hEq
        have hv := Option.some.inj hEq
        rw [← hv] at htr
        exact absurd htr ht

theorem relFindAll_idClean (mm : Mapper) (store : Store) (q : AbstractQuery) :
    ∀ r ∈ (relFindAll mm store q true).1, recIdClean r := by
  intro r hr
  unfold relFindAll at hr
  cases e : getQuery q with
  | none =>
    rw [e] at hr
    simp at hr
  | some mq =>
    rw [e] at hr
    simp only [] at hr
    obtain ⟨r0, _, hrfl⟩ := List.mem_map.mp hr
    rw [← hrfl]
    exact translateIdRec_idClean r0

theorem headD_mem (l : List (List Rec)) {r : Rec} (h : r ∈ l.headD []) :
    ∃ c ∈ l, r ∈ c := by
  cases l with
  | nil => simp at h
  | cons c t => exact ⟨c, List.mem_cons_self _ _, h⟩

theorem takeIf_subset (single : Bool) (l : List Rec) :
    ∀ r ∈ takeIf single l, r ∈ l := by
  intro r hr
  unfold takeIf at hr
  cases single with
  | true => exact List.take_subset 1 l hr
  | false => exact hr

theorem btColOf_subset (d : RelDef) (fetched : List Rec) (fkv : Option JSVal) :
    ∀ r ∈ btColOf d fetched fkv, r ∈ fetched := by
  intro r hr
  unfold btColOf at hr
  cases fkv with
  | none => simp at hr
  | some v =>
    cases v with
    | arr l => simp at hr
    | prim p =>
      have hr2 : r ∈ (if primTruthy p = true then
          List.take 1 (List.filter (fun ri =>
            alookup ri d.related.idAttribute ==
              some (JSVal.prim (coercePrim d.related p))) fetched)
        else []) := hr
      by_cases hp : primTruthy p = true
      · rw [if_pos hp] at hr2
        exact List.mem_of_mem_filter (List.take_subset 1 _ hr2)
      · rw [if_neg hp] at hr2
        simp at hr2

theorem fkBatch_idClean (m : Mapper) (d : RelDef) (fk : String) (store : Store)
    (recs : List Rec) (single : Bool) :
    ∀ col ∈ (fkBatch m d fk store true recs single).1, ∀ r ∈ col, recIdClean r := by
  intro col hc r hr
  unfold fkBatch at hc
  simp only [] at hc
  obtain ⟨r0, _, hcol⟩ := List.mem_map.mp hc
  rw [← hcol] at hr
  have hrel := relFindAll_idClean d.related store
    { whereQ := some [(fk, .criteria [("in",
        .arr (recs.filterMap (fun r =>
          match alookup r m.idAttribute with
          | some (JSVal.prim p) => some (coercePrim d.related p)
          | _ => none)))])] }
  exact hrel r (List.mem_of_mem_filter (takeIf_subset single _ r hr))

theorem btBatch_idClean (m : Mapper) (d : RelDef) (store : Store) (recs : List Rec) :
    ∀ col ∈ (btBatch m d store true recs).1, ∀ r ∈ col, recIdClean r := by
  intro col hc r hr
  unfold btBatch at hc
  simp only [] at hc
  obtain ⟨r0, _, hcol⟩ := List.mem_map.mp hc
  rw [← hcol] at hr
  have hrel := relFindAll_idClean d.related store
    { whereQ := some [(d.related.idAttribute, .criteria [("in",
        .arr (recs.filterMap (fun r =>
          match alookup r (d.foreignKey.getD "") with
          | some (JSVal.prim p) =>
            if primTruthy p then some (coercePrim d.related p) else none
          | _ => none)))])] }
  exact hrel r (btColOf_subset d _ _ r hr)

theorem lkBatchCols_idClean (mm : Mapper) (recs : List Rec) (lkf : String)
    (relatedItems : List Rec) (hrel : ∀ r ∈ relatedItems, recIdClean r) :
    ∀ col ∈ lkBatchCols mm recs lkf relatedItems, ∀ r ∈ col, recIdClean r := by
  intro col hc r hr
  unfold lkBatchCols at hc
  obtain ⟨r0, _, hcol⟩ := List.mem_map.mp hc
  rw [← hcol] at hr
  simp only [] at hr
  exact hrel r (List.mem_of_mem_filter hr)

theorem attachRel_clean (out : List OutRec) (fld : String) (cols : List (List Rec))
    (hout : ∀ o ∈ out, outRecClean o)
    (hcols : ∀ col ∈ cols, ∀ r ∈ col, recIdClean r) :
    ∀ o ∈ attachRel out fld cols, outRecClean o := by
  intro o ho
  unfold attachRel at ho
  obtain ⟨⟨o0, col⟩, hmem, hrfl⟩ := List.mem_map.mp ho
  rw [← hrfl]
  have hz := List.of_mem_zip hmem
  constructor
  · exact (hout o0 hz.1).1
  · intro p hp r hr
    rcases List.mem_append.mp hp with h1 | h2
    · exact (hout o0 hz.1).2 p h1 r hr
    · rw [List.mem_singleton.mp h2] at hr
      exact hcols col hz.2 r hr

theorem runRelSingle_idClean (m : Mapper) (store : Store) (r : Rec) (d : RelDef) :
    ∀ p ∈ (runRelSingle m store true r d).1, ∀ q ∈ p.2, recIdClean q := by
  intro p hp q hq
  unfold runRelSingle at hp
  cases hdp : relDispatch d with
  | none =>
    rw [hdp] at hp
    simp at hp
  | some t =>
    rw [hdp] at hp
    cases t with
    | fkOne fk =>
      simp only [] at hp
      rw [List.mem_singleton.mp hp] at hq
      have hq2 : q ∈ ((fkBatch m d fk store true [r] true).1).headD [] := hq
      obtain ⟨c, hcmem, hrc⟩ := headD_mem _ hq2
      exact fkBatch_idClean m d fk store [r] true c hcmem q hrc
    | fkMany fk =>
      simp only [] at hp
      rw [List.mem_singleton.mp hp] at hq
      have hq2 : q ∈ ((fkBatch m d fk store true [r] false).1).headD [] := hq
      obtain ⟨c, hcmem, hrc⟩ := headD_mem _ hq2
      exact fkBatch_idClean m d fk store [r] false c hcmem q hrc
    | lk lkf =>
      simp only [] at hp
      rw [List.mem_singleton.mp hp] at hq
      have hq2 : q ∈ (relFindAll d.related store
          (inIdsQueryWhere d.related
            (lkMapKeys d.related (containerKeys ((alookup r lkf).getD (.arr []))))) true).1 := hq
      exact relFindAll_idClean d.related store _ q hq2
    | fks fkf =>
      simp only [] at hp
      rw [List.mem_singleton.mp hp] at hq
      have hq2 : q ∈ (relFindAll d.related store
          { whereQ := some [(fkf, .criteria [("contains", idValOf m r)])] } true).1 := hq
      exact relFindAll_idClean d.related store _ q hq2
    | bt =>
      simp only [] at hp
      rw [List.mem_singleton.mp hp] at hq
      have hq2 : q ∈ ((btBatch m d store true [r]).1).headD [] := hq
      obtain ⟨c, hcmem, hrc⟩ := headD_mem _ hq2
      exact btBatch_idClean m d store [r] c hcmem q hrc

theorem runRelsSingle_fold_idClean (m : Mapper) (store : Store) (r : Rec) :
    ∀ (rels : List RelDef) (acc : List (String × List Rec) × Trace),
      (∀ p ∈ acc.1, ∀ q ∈ p.2, recIdClean q) →
      ∀ p ∈ (rels.foldl (fun acc d =>
          let res := runRelSingle m store true r d
          (acc.1 ++ res.1, acc.2 ++ res.2)) acc).1,
        ∀ q ∈ p.2, recIdClean q := by
  intro rels
  induction rels with
  | nil =>
    intro acc hacc
    exact hacc
  | cons d rest ih =>
    intro acc hacc
    simp only [List.foldl_cons]
    apply ih
    intro p hp q hq
    rcases List.mem_append.mp hp with h1 | h2
    · exact hacc p h1 q hq
    · exact runRelSingle_idClean m store r d p h2 q hq

theorem runRelsSingle_idClean (m : Mapper) (store : Store) (r : Rec)
    (rels : List RelDef) :
    ∀ p ∈ (runRelsSingle m store true r rels).1, ∀ q ∈ p.2, recIdClean q := by
  intro p hp q hq
  unfold runRelsSingle at hp
  exact runRelsSingle_fold_idClean m store r rels ([], []) (by simp) p hp q hq

theorem processRels_idClean (m : Mapper) (store : Store) :
    ∀ (rels : List RelDef) (out : List OutRec),
      (∀ o ∈ out, outRecClean o) →
      relsOutClean (processRels m store true out rels).1 := by
  intro rels
  induction rels with
  | nil =>
    intro out hout
    exact hout
  | cons d rest ih =>
    intro out hout
    unfold processRels
    cases hdp : relDispatch d with
    | none => exact ih out hout
    | some t =>
      cases t with
      | fks f => trivial
      | fkOne fk =>
        exact ih _ (attachRel_clean out d.localField _ hout
          (fkBatch_idClean m d fk store (out.map OutRec.base) true))
      | fkMany fk =>
        exact ih _ (attachRel_clean out d.localField _ hout
          (fkBatch_idClean m d fk store (out.map OutRec.base) false))
      | lk lkf =>
        exact ih _ (attachRel_clean out d.localField _ hout
          (lkBatchCols_idClean d.related (out.map OutRec.base) lkf _
            (relFindAll_idClean d.related store _)))
      | bt =>
        exact ih _ (attachRel_clean out d.localField _ hout
          (btBatch_idClean m d store (out.map OutRec.base)))

theorem findModel_clean (m : Mapper) (store : Store) (id : JSVal)
    (rels : List RelDef) : findClean (findModel m store id rels true).1 := by
  simp only [findModel]
  cases e : (collOf store (collectionName m)).find?
      (matchFilter [(m.idAttribute, .val (toObjectID m id))]) with
  | none =>
    intro o ho
    cases ho
  | some r0 =>
    intro o ho
    have ho' := Option.some.inj ho
    rw [← ho']
    constructor
    · exact translateIdRec_idClean r0
    · intro p hp q hq
      exact runRelsSingle_idClean m store (translateIdRec true r0) rels p hp q hq

theorem findAllAssemble_clean (cname : String) (mq : MDoc)
    (pr : Except String (List OutRec) × Trace) (h : relsOutClean pr.1) :
    findAllClean (findAllAssemble cname mq pr).1 := by
  obtain ⟨res, tr⟩ := pr
  cases res with
  | error e => trivial
  | ok out => exact h

theorem findAllModel_clean (m : Mapper) (store : Store) (q : AbstractQuery)
    (rels : List RelDef) : findAllClean (findAllModel m store q rels true).1 := by
  unfold findAllModel
  cases e : getQuery q with
  | none => trivial
  | some mq =>
    apply findAllAssemble_clean
    apply processRels_idClean
    intro o ho
    obtain ⟨r0, hr0, hrfl⟩ := List.mem_map.mp ho
    rw [← hrfl]
    unfold findAllBaseRecs at hr0
    obtain ⟨r1, _, hrfl1⟩ := List.mem_map.mp hr0
    constructor
    · rw [← hrfl1]
      exact translateIdRec_idClean r1
    · intro p hp
      simp at hp

/-- Claim C9 (amended): on every read path with the `translateId` option
enabled and the identifier attribute being the native `_id` field, every
record of the response payload — for `find`, for `findAll`, and for the
related records their relationship resolution attaches — has an identifier
value that is never the native ObjectID type, and whenever that value is
truthy it is a string.  (The original claim promised a string outright;
`_translateId` stringifies only truthy identifiers, so a falsy stored
identifier such as `0` is returned unchanged and non-string — see the
counterexample.) -/
theorem c9_translateId_invariant (m : Mapper) (store : Store) (id : JSVal)
    (q : AbstractQuery) (rels : List RelDef) (_hm : m.idAttribute = "_id") :
    findClean (findModel m store id rels true).1 ∧
    findAllClean (findAllModel m store q rels true).1 :=
  ⟨findModel_clean m store id rels, findAllModel_clean m store q rels⟩

/-- Whether a value read from a record is a string. -/
def isStringVal : Option JSVal → Bool
  | some (.prim (.str _)) => true
  | _ => false

/-- A store holding a record with the falsy identifier `0`. -/
def c9FalsyStore : Store := [("user", [[("_id", jnum 0)]])]

/-- Claim C9 counterexample: with `translateId` enabled and the identifier
attribute `_id`, the record stored with the falsy identifier `0` is found
and returned with that number unchanged — the returned identifier value is
not a string, refuting the original claim's "the identifier's value is a
string" (`_translateId` reads `_r._id ? _r._id.toString() : _r._id`, so
only truthy identifiers are stringified). -/
theorem c9_falsy_id_counterexample :
    (findModel wMapper c9FalsyStore (jnum 0) [] true).1 =
      .ok { payload := some { base := [("_id", jnum 0)], attached := [] },
            found := 1 } ∧
    alookup [("_id", jnum 0)] "_id" = some (jnum 0) ∧
    isStringVal (alookup [("_id", jnum 0)] "_id") = false :=
  ⟨rfl, rfl, rfl⟩

/-- A store holding an ObjectID-keyed record for the C9 witness. -/
def c9Store : Store :=
  [("user", [[("_id", .prim (.oid "aaaaaaaaaaaaaaaaaaaaaaaa")), ("x", jnum 1)]])]

/-- Witness for claim C9, including the concrete evaluation: the stored
ObjectID `_id` comes back as a string. -/
theorem c9_translateId_invariant_witness :
    (findClean (findModel wMapper c9Store (jstr "aaaaaaaaaaaaaaaaaaaaaaaa") [] true).1 ∧
     findAllClean (findAllModel wMapper c9Store {} [] true).1) ∧
    (findModel wMapper c9Store (jstr "aaaaaaaaaaaaaaaaaaaaaaaa") [] true).1 =
      .ok { payload := some
              { base := [("_id", jstr "aaaaaaaaaaaaaaaaaaaaaaaa"), ("x", jnum 1)],
                attached := [] },
            found := 1 } :=
  ⟨c9_translateId_invariant wMapper c9Store (jstr "aaaaaaaaaaaaaaaaaaaaaaaa") {} [] rfl,
   rfl⟩

/-! ## Unsupported operations (claim C6) -/

theorem findAllAssemble_fst (cname : String) (mq : MDoc)
    (pr : Except String (List OutRec) × Trace) (msg : String)
    (h : pr.1 = .error msg) : (findAllAssemble cname mq pr).1 = .error msg := by
  obtain ⟨res, tr⟩ := pr
  simp only [] at h
  rw [h]
  rfl

theorem processRels_fks_error (m : Mapper) (store : Store) (flag : Bool) :
    ∀ (rels : List RelDef) (out : List OutRec),
      (∃ d ∈ rels, ∃ fkf, relDispatch d = some (.fks fkf)) →
      (processRels m store flag out rels).1 =
        .error "findAll eager load hasMany foreignKeys not supported!" := by
  intro rels
  induction rels with
  | nil =>
    rintro out ⟨d, hd, _⟩
    simp at hd
  | cons d rest ih =>
    rintro out ⟨dw, hdw, fkf, hdisp⟩
    rcases List.mem_cons.mp hdw with heq | hmem
    · rw [heq] at hdisp
      unfold processRels
      rw [hdisp]
    · unfold processRels
      cases hdp : relDispatch d with
      | none => exact ih out ⟨dw, hmem, fkf, hdisp⟩
      | some t =>
        cases t with
        | fks f => rfl
        | fkOne fk => exact ih _ ⟨dw, hmem, fkf, hdisp⟩
        | fkMany fk => exact ih _ ⟨dw, hmem, fkf, hdisp⟩
        | lk lkf => exact ih _ ⟨dw, hmem, fkf, hdisp⟩
        | bt => exact ih _ ⟨dw, hmem, fkf, hdisp⟩

/-- Claim C6: bulk identifier-keyed update (`updateMany`) fails fast with
the unsupported-operation error for every input, leaving the store
untouched and issuing nothing; and `findAll` with a hasMany-by-foreignKeys
(many-to-many) relation in scope fails fast with its unsupported-operation
error instead of silently skipping the relation.  The models are
single-shot: a failed operation is never retried. -/
theorem c6_unsupported_operations :
    (∀ (m : Mapper) (records : List Rec) (store : Store),
        updateManyModel m records store = (.error "not supported!", store, [])) ∧
    (∀ (m : Mapper) (store : Store) (q : AbstractQuery) (rels : List RelDef)
        (flag : Bool) (mq : MDoc),
        getQuery q = some mq →
        (∃ d ∈ rels, ∃ fkf, relDispatch d = some (.fks fkf)) →
        (findAllModel m store q rels flag).1 =
          .error "findAll eager load hasMany foreignKeys not supported!") := by
  constructor
  · intro m records store
    rfl
  · intro m store q rels flag mq hq hex
    unfold findAllModel
    rw [hq]
    exact findAllAssemble_fst _ _ _ _ (processRels_fks_error m store flag rels _ hex)

/-- A hasMany-by-foreignKeys (many-to-many) descriptor for the C6
witness. -/
def c6Rel : RelDef :=
  { rtype := .hasMany, related := { name := "tag" },
    foreignKeys := some "userIds", localField := "tags" }

/-- Witness for claim C6 at concrete inputs. -/
theorem c6_unsupported_operations_witness :
    updateManyModel wMapper [] [] = (.error "not supported!", [], []) ∧
    (findAllModel wMapper [] {} [c6Rel] true).1 =
      .error "findAll eager load hasMany foreignKeys not supported!" :=
  ⟨c6_unsupported_operations.1 wMapper [] [],
   c6_unsupported_operations.2 wMapper [] {} [c6Rel] true [] rfl
     ⟨c6Rel, List.mem_singleton.mpr rfl, "userIds", rfl⟩⟩

/-! ## The hasMany-by-localKeys batch scenario (claim C7) -/

/-- The parents' mapper of the C7 scenario. -/
def c7ParentMapper : Mapper := { name := "parent", idAttribute := "id" }

/-- The related collection's mapper of the C7 scenario. -/
def c7RelatedMapper : Mapper := { name := "related", idAttribute := "id" }

/-- The hasMany-by-localKeys descriptor of the C7 scenario. -/
def c7Rel : RelDef :=
  { rtype := .hasMany, related := c7RelatedMapper,
    localKeys := some "localKeys", localField := "rels" }

/-- Parent 1 with local keys `[10, 20]`. -/
def c7Parent1 : Rec := [("id", jnum 1), ("localKeys", jarr [.num 10, .num 20])]

/-- Parent 2 with local keys `[20, 30]`. -/
def c7Parent2 : Rec := [("id", jnum 2), ("localKeys", jarr [.num 20, .num 30])]

/-- Related record 10. -/
def c7Rel10 : Rec := [("id", jnum 10)]

/-- Related record 20. -/
def c7Rel20 : Rec := [("id", jnum 20)]

/-- Related record 30. -/
def c7Rel30 : Rec := [("id", jnum 30)]

/-- The two-collection store of the C7 scenario. -/
def c7Store : Store :=
  [("parent", [c7Parent1, c7Parent2]), ("related", [c7Rel10, c7Rel20, c7Rel30])]

/-- Parent 1 with records 10 and 20 attached. -/
def c7Out1 : OutRec :=
  { base := c7Parent1, attached := [("rels", [c7Rel10, c7Rel20])] }

/-- Parent 2 with records 20 and 30 attached (record 20 on both parents). -/
def c7Out2 : OutRec :=
  { base := c7Parent2, attached := [("rels", [c7Rel20, c7Rel30])] }

/-- Claim C7: batch hasMany-by-localKeys resolution in `findAll` issues
exactly one related-collection query — an `$in` filter over the
deduplicated, falsy-filtered, coerced union `[10, 20, 30]` of the parents'
local keys (visible as the single `related` query of the trace) — and
attaches `[10, 20]` to parent 1 and `[20, 30]` to parent 2, record 20 to
both. -/
theorem c7_localKeys_batch :
    findAllModel c7ParentMapper c7Store {} [c7Rel] true =
      (.ok { payload := [c7Out1, c7Out2], found := 2 },
       [.beforeHook "beforeFindAll", .findQ "parent" [],
        .findQ "related" [("id", .ops [("$in", jarr [.num 10, .num 20, .num 30])])],
        .afterHook "afterFindAll"]) := rfl

/-! ## Bulk update-by-query (claim C4) -/

theorem findAllModel_nil_ok (m : Mapper) (store : Store) (q : AbstractQuery)
    (flag : Bool) (mq : MDoc) (hq : getQuery q = some mq) :
    findAllModel m store q [] flag =
      (.ok { payload := (findAllBaseRecs m store q mq flag).map
               (fun r => ({ base := r } : OutRec)),
             found := ((findAllBaseRecs m store q mq flag).map
               (fun r => ({ base := r } : OutRec))).length },
       [.beforeHook "beforeFindAll", .findQ (collectionName m) mq,
        .afterHook "afterFindAll"]) := by
  unfold findAllModel
  rw [hq]
  rfl

theorem inIdsQueryTop_getQuery (m : Mapper) (ids : List JSPrim) :
    ∃ mq2, getQuery (inIdsQueryTop m ids) = some mq2 := by
  by_cases hres : m.idAttribute ∈ reservedKeys
  · refine ⟨[], ?_⟩
    unfold getQuery inIdsQueryTop normalizedWhere
    simp only [List.foldl_cons, List.foldl_nil, if_pos hres]
    rfl
  · refine ⟨[(m.idAttribute, .ops [("$in", .arr ids)])], ?_⟩
    unfold getQuery inIdsQueryTop normalizedWhere
    simp only [List.foldl_cons, List.foldl_nil, if_neg hres]
    rfl

/-- Claim C4: `updateAll` first reads the records matching the query
(capturing their coerced identifier set), then performs the one
multi-record native update, then re-reads by that identifier set; the
returned envelope's payload consists exactly of the post-update records of
that second read, with `updated` equal to their number — never the raw
native update acknowledgement — and the trace shows the
read / write / read sequence around the hooks. -/
theorem c4_updateAll_rereads (m : Mapper) (store : Store)
    (props : List (String × JSVal)) (q : AbstractQuery) (flag : Bool) (mq : MDoc)
    (hq : getQuery q = some mq) (hok : updateDocOk (getQueryOptions q) = true) :
    updateAllModel m store props q flag =
      (.ok (okPayload (findAllModel m (updateAllPostStore m store props mq)
              (inIdsQueryTop m (updateAllIds m store q flag)) [] flag).1,
            (okPayload (findAllModel m (updateAllPostStore m store props mq)
              (inIdsQueryTop m (updateAllIds m store q flag)) [] flag).1).length),
       updateAllPostStore m store props mq,
       [.beforeHook "beforeUpdateAll"] ++ (findAllModel m store q [] flag).2 ++
         [.updateQ (collectionName m) mq (withoutRelations m props)] ++
         (findAllModel m (updateAllPostStore m store props mq)
           (inIdsQueryTop m (updateAllIds m store q flag)) [] flag).2 ++
         [.afterHook "afterUpdateAll"]) := by
  obtain ⟨mq2, hq2⟩ := inIdsQueryTop_getQuery m (updateAllIds m store q flag)
  have h1 := findAllModel_nil_ok m store q flag mq hq
  have h2 := findAllModel_nil_ok m (updateAllPostStore m store props mq)
    (inIdsQueryTop m (updateAllIds m store q flag)) flag mq2 hq2
  unfold updateAllModel
  rw [hq]
  simp only [h1, h2, hok, if_pos, okPayload]

/-- The mapper of the C4 witness scenario. -/
def c4Mapper : Mapper := { name := "user", idAttribute := "id" }

/-- A store with three records matching the C4 query and one that does
not. -/
def c4Store : Store :=
  [("user",
    [[("id", jnum 1), ("status", jstr "x")],
     [("id", jnum 2), ("status", jstr "x")],
     [("id", jnum 3), ("status", jstr "x")],
     [("id", jnum 4), ("status", jstr "y")]])]

/-- The C4 selection query: `status == "x"`. -/
def c4Query : AbstractQuery := { extras := [("status", .lit (jstr "x"))] }

/-- The native filter of the C4 query. -/
def c4mq : MDoc := [("status", .val (jstr "x"))]

/-- Witness for claim C4 on a 3-record match, with the concrete
evaluation: the payload is exactly the three post-update records and
`updated = 3`. -/
theorem c4_updateAll_rereads_witness :
    updateAllModel c4Mapper c4Store [("status", jstr "z")] c4Query true =
      (.ok (okPayload (findAllModel c4Mapper
              (updateAllPostStore c4Mapper c4Store [("status", jstr "z")] c4mq)
              (inIdsQueryTop c4Mapper (updateAllIds c4Mapper c4Store c4Query true))
              [] true).1,
            (okPayload (findAllModel c4Mapper
              (updateAllPostStore c4Mapper c4Store [("status", jstr "z")] c4mq)
              (inIdsQueryTop c4Mapper (updateAllIds c4Mapper c4Store c4Query true))
              [] true).1).length),
       updateAllPostStore c4Mapper c4Store [("status", jstr "z")] c4mq,
       [.beforeHook "beforeUpdateAll"] ++
         (findAllModel c4Mapper c4Store c4Query [] true).2 ++
         [.updateQ "user" c4mq [("status", jstr "z")]] ++
         (findAllModel c4Mapper
           (updateAllPostStore c4Mapper c4Store [("status", jstr "z")] c4mq)
           (inIdsQueryTop c4Mapper (updateAllIds c4Mapper c4Store c4Query true))
           [] true).2 ++
         [.afterHook "afterUpdateAll"]) ∧
    (updateAllModel c4Mapper c4Store [("status", jstr "z")] c4Query true).1 =
      .ok ([{ base := [("id", jnum 1), ("status", jstr "z")] },
            { base := [("id", jnum 2), ("status", jstr "z")] },
            { base := [("id", jnum 3), ("status", jstr "z")] }], 3) :=
  ⟨c4_updateAll_rereads c4Mapper c4Store [("status", jstr "z")] c4Query true c4mq
     rfl rfl, rfl⟩

end JsDataMongo
